import Mathlib

/-!
Verification development for the pybroker event broker
(src/broker/broker.py, the current iteration of the source).

Python strings are modelled as lists of characters (Str); Python
str.startswith, str.endswith and slicing are exactly character-sequence
prefix, suffix and take operations.  Python dicts (which preserve
insertion order) are modelled as association lists with first-match
lookup, in-place update and end insertion.  A callback object is
identified by a natural number; a Subscriber's weak reference to its
callback is an Option: some id while the referent is alive, none once
it has been garbage collected (Subscriber.callback in the source
returns the referent or None).  Keyword-argument name sets are Finsets
of Str.  Each broker operation returns the successor state, the list of
observable events it performed (subscriber invocations and
notification emissions), and an optional propagated exception; state
mutations performed before an exception is raised survive it, exactly
as in Python.
-/

namespace PyBroker

/-- A Python string as a character sequence. -/
abbrev Str := List Char

/-- Error conditions raised in broker.py: SignatureMismatchError,
EmitArgumentError, and the TypeError Python raises when a collected
(None) callback is called. -/
inductive BrokerError where
  | sigMismatch
  | emitArgument
  | typeError
deriving DecidableEq

/-- A subscriber record, from the Subscriber dataclass.  The field ns
models the field named namespace in the source. -/
structure Subscriber where
  weak_callback : Option Nat
  priority : Int
  is_async : Bool
  ns : Str
deriving DecidableEq

/-- Subscriber.callback: the live callback, or none if collected. -/
def Subscriber.callback (sub : Subscriber) : Option Nat :=
  sub.weak_callback

/-- Observable actions of one broker operation: a callback invocation
(awaited is true when the dispatcher awaits an async callback), or a
self-observability notification emitted on a reserved channel. -/
inductive Event where
  | invoke (sub : Subscriber) (awaited : Bool) (args : Finset Str)
  | notify (channel : Str) (carried : Str)
deriving DecidableEq

/-- The broker state: the two module-level dicts plus the notification
flags set in Broker.init and set_flag_sates. -/
structure BrokerState where
  subscribers : List (Str × List Subscriber)
  namespaceSignatures : List (Str × Option (Finset Str))
  notify_on_all : Bool
  notify_on_subscribe : Bool
  notify_on_unsubscribe : Bool
  notify_on_collected : Bool
  notify_on_emit : Bool
  notify_on_emit_async : Bool
  notify_on_emit_all : Bool
  notify_on_new_namespace : Bool
  notify_on_del_namespace : Bool
deriving DecidableEq

/-- Fresh broker: empty dicts, every flag false. -/
def initState : BrokerState :=
  ⟨[], [], false, false, false, false, false, false, false, false, false⟩

/-- Dict lookup (first matching key). -/
def lookupA {α : Type} : List (Str × α) → Str → Option α
  | [], _ => none
  | kv :: rest, k => if kv.1 == k then some kv.2 else lookupA rest k

/-- Dict membership test. -/
def containsA {α : Type} : List (Str × α) → Str → Bool
  | [], _ => false
  | kv :: rest, k => kv.1 == k || containsA rest k

/-- Dict assignment: replace in place if the key exists, else append at
the end (Python dicts preserve insertion order). -/
def setA {α : Type} : List (Str × α) → Str → α → List (Str × α)
  | [], k, v => [(k, v)]
  | kv :: rest, k, v => if kv.1 == k then (k, v) :: rest else kv :: setA rest k v

/-- Dict deletion. -/
def eraseA {α : Type} : List (Str × α) → Str → List (Str × α)
  | [], _ => []
  | kv :: rest, k => if kv.1 == k then eraseA rest k else kv :: eraseA rest k

/-- Python str.startswith. -/
def strStartsWith (s p : Str) : Bool := p.isPrefixOf s

/-- Python str.endswith. -/
def strEndsWith (s p : Str) : Bool := p.isSuffixOf s

def dotStar : Str := ".*".data

def dotStr : Str := ".".data

def usingStr : Str := "using".data

/-- The reserved self-observability namespace root (note the trailing
dot), and the fixed notification channels built from it. -/
def NOTIFY_NAMESPACE_ROOT : Str := "broker.notify.".data

def BROKER_ON_SUBSCRIBER_ADDED : Str := NOTIFY_NAMESPACE_ROOT ++ "subscriber.added".data

def BROKER_ON_SUBSCRIBER_REMOVED : Str := NOTIFY_NAMESPACE_ROOT ++ "subscriber.removed".data

def BROKER_ON_SUBSCRIBER_COLLECTED : Str := NOTIFY_NAMESPACE_ROOT ++ "subscriber.collected".data

def BROKER_ON_EMIT : Str := NOTIFY_NAMESPACE_ROOT ++ "emit.sync".data

def BROKER_ON_EMIT_ASYNC : Str := NOTIFY_NAMESPACE_ROOT ++ "emit.async".data

def BROKER_ON_EMIT_ALL : Str := NOTIFY_NAMESPACE_ROOT ++ "emit.all".data

def BROKER_ON_NAMESPACE_CREATED : Str := NOTIFY_NAMESPACE_ROOT ++ "namespace.created".data

def BROKER_ON_NAMESPACE_DELETED : Str := NOTIFY_NAMESPACE_ROOT ++ "namespace.deleted".data

/-- Broker._matches: exact equality, or a trailing wildcard pattern
whose root (the pattern minus the trailing two characters) followed by
a dot is a prefix of the event namespace. -/
def matchesNs (event_namespace subscriber_namespace : Str) : Bool :=
  if event_namespace == subscriber_namespace then true
  else if strEndsWith subscriber_namespace dotStar then
    strStartsWith event_namespace
      (subscriber_namespace.take (subscriber_namespace.length - 2) ++ dotStr)
  else false

/-- A namespace under the reserved notification root. -/
def reservedNs (k : Str) : Bool := strStartsWith k NOTIFY_NAMESPACE_ROOT

/-- Stable insertion of a subscriber into a descending-priority list:
the new element goes after every element of greater or equal priority,
exactly as Python's stable sorted(key=priority, reverse=True) orders
a later list element relative to earlier ones. -/
def insertSub (x : Subscriber) : List Subscriber → List Subscriber
  | [] => [x]
  | y :: ys => if x.priority ≤ y.priority then y :: insertSub x ys else x :: y :: ys

def sortAux : List Subscriber → List Subscriber → List Subscriber
  | acc, [] => acc
  | acc, x :: xs => sortAux (insertSub x acc) xs

/-- sorted(subscribers, key=priority, reverse=True): stable descending
sort by priority. -/
def sortSubs (l : List Subscriber) : List Subscriber := sortAux [] l

/-- The inner loop of Broker.emit over one key's sorted subscriber
list: async subscribers are skipped, sync ones have their resolved
callback called; calling a collected (None) callback raises TypeError,
which aborts the remaining iterations. -/
def dispatchSync (args : Finset Str) : List Subscriber → List Event × Option BrokerError
  | [] => ([], none)
  | sub :: rest =>
    if sub.is_async then dispatchSync args rest
    else
      match sub.callback with
      | none => ([], some BrokerError.typeError)
      | some _ =>
        let r := dispatchSync args rest
        (Event.invoke sub false args :: r.1, r.2)

/-- The outer loop of Broker.emit over the registry dict: keys are
visited in insertion order; each matching key's subscribers are sorted
by descending priority and dispatched; an exception stops the loop. -/
def dispatchSyncAll (event_namespace : Str) (args : Finset Str) :
    List (Str × List Subscriber) → List Event × Option BrokerError
  | [] => ([], none)
  | kv :: rest =>
    if matchesNs event_namespace kv.1 then
      let r1 := dispatchSync args (sortSubs kv.2)
      match r1.2 with
      | some e => (r1.1, some e)
      | none =>
        let r2 := dispatchSyncAll event_namespace args rest
        (r1.1 ++ r2.1, r2.2)
    else dispatchSyncAll event_namespace args rest

/-- The inner loop of Broker.emit_async: every subscriber's callback is
called, async ones awaited; a collected callback again raises
TypeError. -/
def dispatchAsync (args : Finset Str) : List Subscriber → List Event × Option BrokerError
  | [] => ([], none)
  | sub :: rest =>
    match sub.callback with
    | none => ([], some BrokerError.typeError)
    | some _ =>
      let r := dispatchAsync args rest
      (Event.invoke sub sub.is_async args :: r.1, r.2)

/-- The outer loop of Broker.emit_async over the registry dict. -/
def dispatchAsyncAll (event_namespace : Str) (args : Finset Str) :
    List (Str × List Subscriber) → List Event × Option BrokerError
  | [] => ([], none)
  | kv :: rest =>
    if matchesNs event_namespace kv.1 then
      let r1 := dispatchAsync args (sortSubs kv.2)
      match r1.2 with
      | some e => (r1.1, some e)
      | none =>
        let r2 := dispatchAsyncAll event_namespace args rest
        (r1.1 ++ r2.1, r2.2)
    else dispatchAsyncAll event_namespace args rest

/-- _NAMESPACE_SIGNATURES.get(k): none when the key is absent or the
stored expectation is the unconstrained sentinel. -/
def sigGet (s : BrokerState) (k : Str) : Option (Finset Str) :=
  (lookupA s.namespaceSignatures k).getD none

/-- Broker._validate_emit_args: collect the registry keys matching the
emitted namespace and raise EmitArgumentError on the first one whose
constrained expectation differs from the provided keyword-name set. -/
def validateEmitArgs (s : BrokerState) (event_namespace : Str) (provided : Finset Str) :
    Option BrokerError :=
  if ((s.subscribers.map Prod.fst).filter (fun k => matchesNs event_namespace k)).any
      (fun k =>
        match sigGet s k with
        | none => false
        | some expected => decide (expected ≠ provided)) then
    some BrokerError.emitArgument
  else none

/-- Broker.emit before its trailing notification step: validate, then
dispatch synchronously. -/
def emitCore (s : BrokerState) (event_namespace : Str) (provided : Finset Str) :
    List Event × Option BrokerError :=
  match validateEmitArgs s event_namespace provided with
  | some e => ([], some e)
  | none => dispatchSyncAll event_namespace provided s.subscribers

/-- Broker.emit_async before its trailing notification step. -/
def emitAsyncCore (s : BrokerState) (event_namespace : Str) (provided : Finset Str) :
    List Event × Option BrokerError :=
  match validateEmitArgs s event_namespace provided with
  | some e => ([], some e)
  | none => dispatchAsyncAll event_namespace provided s.subscribers

/-- One notification emission self.emit(channel, using=ns): a full emit
of the keyword set containing just the name using, on a reserved
channel.  Since every channel starts with the reserved root, the full
emit of it equals emitCore (its own notification tail is guarded off);
the lemma emit_reserved_eq_emitCore below discharges this. -/
def notifyEmit (s : BrokerState) (channel : Str) (carried : Str) :
    List Event × Option BrokerError :=
  let r := emitCore s channel {usingStr}
  (Event.notify channel carried :: r.1, r.2)

/-- Broker.emit: validate and dispatch, then, when the emitted
namespace is not reserved and a sync-emit notification flag is on,
re-emit on the sync-emit channel. -/
def emit (s : BrokerState) (event_namespace : Str) (provided : Finset Str) :
    List Event × Option BrokerError :=
  match (emitCore s event_namespace provided).2 with
  | some e => ((emitCore s event_namespace provided).1, some e)
  | none =>
    if !reservedNs event_namespace && (s.notify_on_emit || s.notify_on_emit_all) then
      ((emitCore s event_namespace provided).1 ++
          (notifyEmit s BROKER_ON_EMIT event_namespace).1,
        (notifyEmit s BROKER_ON_EMIT event_namespace).2)
    else ((emitCore s event_namespace provided).1, none)

/-- Broker.emit_async: as emit but dispatching every subscriber, with
the trailing notification going through the synchronous emit path on
the async-emit channel. -/
def emitAsync (s : BrokerState) (event_namespace : Str) (provided : Finset Str) :
    List Event × Option BrokerError :=
  match (emitAsyncCore s event_namespace provided).2 with
  | some e => ((emitAsyncCore s event_namespace provided).1, some e)
  | none =>
    if !reservedNs event_namespace && (s.notify_on_emit_async || s.notify_on_emit_all) then
      ((emitAsyncCore s event_namespace provided).1 ++
          (notifyEmit s BROKER_ON_EMIT_ASYNC event_namespace).1,
        (notifyEmit s BROKER_ON_EMIT_ASYNC event_namespace).2)
    else ((emitAsyncCore s event_namespace provided).1, none)

/-- The registry after appending the new subscriber to its namespace
list (the list is created by the preceding phase when absent). -/
def registerState3 (s : BrokerState) (ns : Str) (subscriber : Subscriber) : BrokerState :=
  { s with
    subscribers := setA s.subscribers ns ((lookupA s.subscribers ns).getD [] ++ [subscriber]) }

/-- Tail of Broker.register_subscriber: append the new subscriber to
the namespace's list, then possibly notify subscriber-added. -/
def registerPhase3 (s : BrokerState) (ns : Str) (subscriber : Subscriber)
    (evs : List Event) : BrokerState × List Event × Option BrokerError :=
  if !reservedNs ns && s.notify_on_subscribe then
    (registerState3 s ns subscriber,
      evs ++ (notifyEmit (registerState3 s ns subscriber) BROKER_ON_SUBSCRIBER_ADDED ns).1,
      (notifyEmit (registerState3 s ns subscriber) BROKER_ON_SUBSCRIBER_ADDED ns).2)
  else (registerState3 s ns subscriber, evs, none)

/-- The registry after creating an empty list for a new namespace. -/
def registerState2 (s : BrokerState) (ns : Str) : BrokerState :=
  { s with subscribers := setA s.subscribers ns [] }

/-- Middle of Broker.register_subscriber: create the namespace entry if
absent (possibly notifying namespace-created, whose failure would
propagate before the subscriber is appended). -/
def registerPhase2 (s : BrokerState) (ns : Str) (subscriber : Subscriber) :
    BrokerState × List Event × Option BrokerError :=
  if containsA s.subscribers ns then registerPhase3 s ns subscriber []
  else
    if !reservedNs ns && s.notify_on_new_namespace then
      match (notifyEmit (registerState2 s ns) BROKER_ON_NAMESPACE_CREATED ns).2 with
      | some e =>
        (registerState2 s ns,
          (notifyEmit (registerState2 s ns) BROKER_ON_NAMESPACE_CREATED ns).1, some e)
      | none =>
        registerPhase3 (registerState2 s ns) ns subscriber
          (notifyEmit (registerState2 s ns) BROKER_ON_NAMESPACE_CREATED ns).1
    else registerPhase3 (registerState2 s ns) ns subscriber []

/-- Broker.register_subscriber.  The callback's reflected parameter
set (callback_params, none meaning it declares a catch-all keyword
parameter) and its async flag are inputs, as runtime reflection
computes them from the callback in the source.  The signature phase
runs first: a first subscriber records its set; an unconstrained party
widens the record to none; two differing constrained sets raise
SignatureMismatchError before any state change. -/
def registerSubscriber (s : BrokerState) (ns : Str) (cb : Nat)
    (callback_params : Option (Finset Str)) (priority : Int) (is_async : Bool) :
    BrokerState × List Event × Option BrokerError :=
  match lookupA s.namespaceSignatures ns with
  | none =>
    registerPhase2
      { s with namespaceSignatures := setA s.namespaceSignatures ns callback_params }
      ns ⟨some cb, priority, is_async, ns⟩
  | some existing_params =>
    if existing_params = none ∨ callback_params = none then
      registerPhase2
        { s with namespaceSignatures := setA s.namespaceSignatures ns none }
        ns ⟨some cb, priority, is_async, ns⟩
    else if existing_params ≠ callback_params then
      (s, [], some BrokerError.sigMismatch)
    else registerPhase2 s ns ⟨some cb, priority, is_async, ns⟩

/-- The state after deleting an emptied namespace entry and (when
present) its signature entry. -/
def unregisterDelState (s : BrokerState) (ns : Str) : BrokerState :=
  if containsA s.namespaceSignatures ns then
    { s with subscribers := eraseA s.subscribers ns,
             namespaceSignatures := eraseA s.namespaceSignatures ns }
  else { s with subscribers := eraseA s.subscribers ns }

/-- Tail of Broker.unregister_subscriber: when the filtered list is
empty, delete the registry entry and its signature entry and possibly
notify namespace-deleted. -/
def unregisterPhase2 (s : BrokerState) (ns : Str) (filtered : List Subscriber)
    (evs : List Event) : BrokerState × List Event × Option BrokerError :=
  if filtered.isEmpty then
    if !reservedNs ns && s.notify_on_del_namespace then
      (unregisterDelState s ns,
        evs ++ (notifyEmit (unregisterDelState s ns) BROKER_ON_NAMESPACE_DELETED ns).1,
        (notifyEmit (unregisterDelState s ns) BROKER_ON_NAMESPACE_DELETED ns).2)
    else (unregisterDelState s ns, evs, none)
  else (s, evs, none)

/-- The registry after rebinding the namespace to the filtered list. -/
def unregisterState1 (s : BrokerState) (ns : Str) (filtered : List Subscriber) :
    BrokerState :=
  { s with subscribers := setA s.subscribers ns filtered }

/-- Body of Broker.unregister_subscriber after the filtered list has
been computed and stored: possibly notify subscriber-removed, then
cascade-delete when the list emptied. -/
def unregisterGo (s : BrokerState) (ns : Str) (filtered : List Subscriber) :
    BrokerState × List Event × Option BrokerError :=
  if !reservedNs ns && s.notify_on_unsubscribe then
    match (notifyEmit (unregisterState1 s ns filtered) BROKER_ON_SUBSCRIBER_REMOVED ns).2 with
    | some e =>
      (unregisterState1 s ns filtered,
        (notifyEmit (unregisterState1 s ns filtered) BROKER_ON_SUBSCRIBER_REMOVED ns).1,
        some e)
    | none =>
      unregisterPhase2 (unregisterState1 s ns filtered) ns filtered
        (notifyEmit (unregisterState1 s ns filtered) BROKER_ON_SUBSCRIBER_REMOVED ns).1
  else unregisterPhase2 (unregisterState1 s ns filtered) ns filtered []

/-- Broker.unregister_subscriber: keep every subscriber whose resolved
callback differs from the argument (a collected subscriber resolves to
None and is therefore kept), possibly notify subscriber-removed, then
cascade-delete an emptied namespace. -/
def unregisterSubscriber (s : BrokerState) (ns : Str) (cb : Nat) :
    BrokerState × List Event × Option BrokerError :=
  match lookupA s.subscribers ns with
  | none => (s, [], none)
  | some subs => unregisterGo s ns (subs.filter (fun sub => sub.callback != some cb))

/-- The registry after pruning the namespace's collected subscribers
(the emptied entry and its signature entry are not deleted). -/
def collectedState (s : BrokerState) (ns : Str) : BrokerState :=
  if containsA s.subscribers ns then
    { s with
      subscribers :=
        setA s.subscribers ns
          (((lookupA s.subscribers ns).getD []).filter (fun sub => sub.callback.isSome)) }
  else s

/-- Broker._on_callback_collected: drop the namespace's collected
subscribers, then possibly notify subscriber-collected. -/
def onCallbackCollected (s : BrokerState) (ns : Str) :
    BrokerState × List Event × Option BrokerError :=
  if s.notify_on_collected && !reservedNs ns then
    (collectedState s ns,
      (notifyEmit (collectedState s ns) BROKER_ON_SUBSCRIBER_COLLECTED ns).1,
      (notifyEmit (collectedState s ns) BROKER_ON_SUBSCRIBER_COLLECTED ns).2)
  else (collectedState s ns, [], none)

/-- Broker.clear: a static method clearing the two module-level dicts;
the instance notification flags are not touched. -/
def clear (s : BrokerState) : BrokerState :=
  { s with subscribers := [], namespaceSignatures := [] }

/-- Broker.set_flag_sates: sets the eight keyword flags together
(notify_on_all is only ever set in the constructor). -/
def setFlagSates (s : BrokerState)
    (on_subscribe on_unsubscribe on_collected on_emit on_emit_async on_emit_all
      on_new_namespace on_del_namespace : Bool) : BrokerState :=
  { s with
    notify_on_subscribe := on_subscribe,
    notify_on_unsubscribe := on_unsubscribe,
    notify_on_collected := on_collected,
    notify_on_emit := on_emit,
    notify_on_emit_async := on_emit_async,
    notify_on_emit_all := on_emit_all,
    notify_on_new_namespace := on_new_namespace,
    notify_on_del_namespace := on_del_namespace }

/-- Garbage collection of a callback object: every weak reference to it,
under any namespace, now resolves to None.  This is the environment
transition that precedes the _on_callback_collected cleanup hook. -/
def killCallback (s : BrokerState) (cb : Nat) : BrokerState :=
  let killSub := fun (sub : Subscriber) =>
    if sub.weak_callback == some cb then { sub with weak_callback := none } else sub
  { s with subscribers := s.subscribers.map (fun kv => (kv.1, kv.2.map killSub)) }

/-- The matching subscriber collection of one emit call, in dispatch
order: matching registry keys in insertion order, each key's list
sorted by descending priority (stable). -/
def collectMatching (s : BrokerState) (event_namespace : Str) : List Subscriber :=
  ((s.subscribers.filter (fun kv => matchesNs event_namespace kv.1)).map
    (fun kv => sortSubs kv.2)).flatten

/-- The namespace-matching predicate exactly as claim C5 words it: the
strings are equal, or the pattern ends in dot-star and the event starts
with the pattern's root followed by a dot and at least one further
character. -/
def specMatchesClaim (event_namespace pattern_namespace : Str) : Bool :=
  (event_namespace == pattern_namespace) ||
    (strEndsWith pattern_namespace dotStar &&
      (strStartsWith event_namespace
          (pattern_namespace.take (pattern_namespace.length - 2) ++ dotStr) &&
        decide ((pattern_namespace.take (pattern_namespace.length - 2)).length + 1 <
          event_namespace.length)))

/-- Descending priority order. -/
abbrev SortedDesc (l : List Subscriber) : Prop :=
  l.Pairwise (fun a b => b.priority ≤ a.priority)

/-- Every subscriber in the list holds a live weak reference. -/
abbrev LiveList (l : List Subscriber) : Prop :=
  ∀ sub ∈ l, sub.weak_callback ≠ none

/-- Every subscriber under a key matching the emitted namespace is
live. -/
abbrev AllLive (s : BrokerState) (event_namespace : Str) : Prop :=
  ∀ kv ∈ s.subscribers, matchesNs event_namespace kv.1 = true → LiveList kv.2

/-- The registry invariant exactly as claim C7 words it: a key exists
in the registry iff it holds at least one live subscriber, and a
signature entry exists iff the registry key exists. -/
def RegistryInv (s : BrokerState) : Prop :=
  (∀ k, containsA s.subscribers k = true ↔
    ∃ l, lookupA s.subscribers k = some l ∧ ∃ sub ∈ l, sub.weak_callback ≠ none) ∧
  (∀ k, containsA s.namespaceSignatures k = containsA s.subscribers k)

/-- The stronger structural invariant the mutating operations actually
maintain: every registry list is nonempty and fully live, and the two
dicts hold exactly the same keys. -/
def StrongInv (s : BrokerState) : Prop :=
  (∀ k l, lookupA s.subscribers k = some l → l ≠ [] ∧ LiveList l) ∧
  (∀ k, containsA s.namespaceSignatures k = containsA s.subscribers k)

/-- No notification was emitted in the event list. -/
def NoNotifEvents (evs : List Event) : Prop :=
  ∀ c u, Event.notify c u ∉ evs

/-! Association-list (dict) lemmas. -/

theorem lookupA_setA_self {α : Type} (l : List (Str × α)) (k : Str) (v : α) :
    lookupA (setA l k v) k = some v := by
  induction l with
  | nil => simp [setA, lookupA]
  | cons kv rest ih =>
    by_cases h : kv.1 = k
    · simp [setA, lookupA, h]
    · simp only [setA, lookupA]
      rw [if_neg (by simpa using h)]
      simpa [lookupA, h] using ih

theorem lookupA_setA_ne {α : Type} (l : List (Str × α)) (k k' : Str) (v : α)
    (h : k' ≠ k) : lookupA (setA l k v) k' = lookupA l k' := by
  have hkk : ¬ ((k == k') = true) := by
    simpa using fun hh => h hh.symm
  induction l with
  | nil =>
    simp only [setA, lookupA]
    rw [if_neg hkk]
  | cons kv rest ih =>
    by_cases hk : kv.1 = k
    · simp only [setA]
      rw [if_pos (by simpa using hk)]
      simp only [lookupA]
      rw [if_neg hkk, if_neg (by rw [hk]; exact hkk)]
    · simp only [setA]
      rw [if_neg (by simpa using hk)]
      simp only [lookupA]
      split
      · rfl
      · exact ih

theorem containsA_eq_isSome_lookupA {α : Type} (l : List (Str × α)) (k : Str) :
    containsA l k = (lookupA l k).isSome := by
  induction l with
  | nil => simp [containsA, lookupA]
  | cons kv rest ih =>
    simp only [containsA, lookupA]
    split
    · simp_all
    · simp_all

theorem containsA_setA_self {α : Type} (l : List (Str × α)) (k : Str) (v : α) :
    containsA (setA l k v) k = true := by
  rw [containsA_eq_isSome_lookupA, lookupA_setA_self]
  rfl

theorem containsA_setA_ne {α : Type} (l : List (Str × α)) (k k' : Str) (v : α)
    (h : k' ≠ k) : containsA (setA l k v) k' = containsA l k' := by
  rw [containsA_eq_isSome_lookupA, containsA_eq_isSome_lookupA, lookupA_setA_ne l k k' v h]

theorem lookupA_eraseA_self {α : Type} (l : List (Str × α)) (k : Str) :
    lookupA (eraseA l k) k = none := by
  induction l with
  | nil => simp [eraseA, lookupA]
  | cons kv rest ih =>
    simp only [eraseA]
    split
    · exact ih
    · simp only [lookupA]
      split
      · simp_all
      · exact ih

theorem lookupA_eraseA_ne {α : Type} (l : List (Str × α)) (k k' : Str)
    (h : k' ≠ k) : lookupA (eraseA l k) k' = lookupA l k' := by
  induction l with
  | nil => simp [eraseA]
  | cons kv rest ih =>
    simp only [eraseA, lookupA]
    split
    · rw [ih]
      rw [if_neg]
      simp_all
      intro hh
      exact h (by simp_all)
    · simp only [lookupA]
      split
      · rfl
      · exact ih

theorem containsA_eraseA_self {α : Type} (l : List (Str × α)) (k : Str) :
    containsA (eraseA l k) k = false := by
  rw [containsA_eq_isSome_lookupA, lookupA_eraseA_self]
  rfl

theorem containsA_eraseA_ne {α : Type} (l : List (Str × α)) (k k' : Str)
    (h : k' ≠ k) : containsA (eraseA l k) k' = containsA l k' := by
  rw [containsA_eq_isSome_lookupA, containsA_eq_isSome_lookupA, lookupA_eraseA_ne l k k' h]

theorem mem_setA {α : Type} {l : List (Str × α)} {k : Str} {v : α} {kv' : Str × α}
    (h : kv' ∈ setA l k v) : kv' = (k, v) ∨ kv' ∈ l := by
  induction l with
  | nil => simpa [setA] using h
  | cons kv rest ih =>
    simp only [setA] at h
    split at h
    · rcases List.mem_cons.1 h with h1 | h1
      · exact Or.inl h1
      · exact Or.inr (List.mem_cons_of_mem _ h1)
    · rcases List.mem_cons.1 h with h1 | h1
      · exact Or.inr (h1 ▸ List.mem_cons_self _ _)
      · rcases ih h1 with h2 | h2
        · exact Or.inl h2
        · exact Or.inr (List.mem_cons_of_mem _ h2)

theorem mem_eraseA {α : Type} {l : List (Str × α)} {k : Str} {kv' : Str × α}
    (h : kv' ∈ eraseA l k) : kv' ∈ l := by
  induction l with
  | nil => simp [eraseA] at h
  | cons kv rest ih =>
    simp only [eraseA] at h
    split at h
    · exact List.mem_cons_of_mem _ (ih h)
    · rcases List.mem_cons.1 h with h1 | h1
      · exact h1 ▸ List.mem_cons_self _ _
      · exact List.mem_cons_of_mem _ (ih h1)

theorem lookupA_mem {α : Type} {l : List (Str × α)} {k : Str} {v : α}
    (h : lookupA l k = some v) : (k, v) ∈ l := by
  induction l with
  | nil => simp [lookupA] at h
  | cons kv rest ih =>
    simp only [lookupA] at h
    split at h
    · rename_i hcond
      have h1 : kv.1 = k := by simpa using hcond
      have h2 : kv.2 = v := by simpa using h
      have hkv : kv = (k, v) := by
        cases kv
        simp_all
      rw [hkv]
      exact List.mem_cons_self _ _
    · exact List.mem_cons_of_mem _ (ih h)

/-! Stable descending insertion-sort lemmas. -/

theorem insertSub_perm (x : Subscriber) (l : List Subscriber) :
    (insertSub x l).Perm (x :: l) := by
  induction l with
  | nil => simp [insertSub]
  | cons y ys ih =>
    simp only [insertSub]
    split
    · exact ((List.perm_cons y).2 ih).trans (List.Perm.swap x y ys)
    · exact List.Perm.refl _

theorem mem_insertSub {x sub : Subscriber} {l : List Subscriber} :
    sub ∈ insertSub x l ↔ sub = x ∨ sub ∈ l := by
  rw [(insertSub_perm x l).mem_iff]
  simp

theorem insertSub_sorted (x : Subscriber) (l : List Subscriber) (h : SortedDesc l) :
    SortedDesc (insertSub x l) := by
  induction l with
  | nil => simp [insertSub]
  | cons y ys ih =>
    replace h := List.pairwise_cons.1 h
    simp only [insertSub]
    split
    · refine List.pairwise_cons.2 ⟨fun sub hsub => ?_, ih h.2⟩
      rcases mem_insertSub.1 hsub with h1 | h1
      · subst h1
        assumption
      · exact h.1 sub h1
    · refine List.pairwise_cons.2 ⟨fun sub hsub => ?_, List.pairwise_cons.2 h⟩
      rcases List.mem_cons.1 hsub with h1 | h1
      · subst h1
        omega
      · have := h.1 sub h1
        omega

theorem insertSub_filter_ne (x : Subscriber) (l : List Subscriber) (p : Int)
    (h : x.priority ≠ p) :
    (insertSub x l).filter (fun sub => decide (sub.priority = p)) =
      l.filter (fun sub => decide (sub.priority = p)) := by
  induction l with
  | nil => simp [insertSub, h]
  | cons y ys ih =>
    simp only [insertSub]
    split
    · simp only [List.filter_cons]
      split
      · rw [ih]
      · exact ih
    · simp [List.filter_cons, h]

theorem insertSub_filter_self (x : Subscriber) (l : List Subscriber)
    (h : SortedDesc l) :
    (insertSub x l).filter (fun sub => decide (sub.priority = x.priority)) =
      l.filter (fun sub => decide (sub.priority = x.priority)) ++ [x] := by
  induction l with
  | nil => simp [insertSub]
  | cons y ys ih =>
    replace h := List.pairwise_cons.1 h
    simp only [insertSub]
    split
    · simp only [List.filter_cons]
      split
      · rw [ih h.2]
        simp
      · exact ih h.2
    · rename_i hcond
      have hy : ¬ (y.priority = x.priority) := by omega
      have hys : (y :: ys).filter (fun sub => decide (sub.priority = x.priority)) = [] := by
        rw [List.filter_eq_nil_iff]
        intro sub hsub
        simp only [decide_eq_true_eq]
        rcases List.mem_cons.1 hsub with h1 | h1
        · subst h1
          omega
        · have := h.1 sub h1
          omega
      rw [List.filter_cons_of_pos (by simp), hys]
      simp

theorem sortAux_perm (acc l : List Subscriber) : (sortAux acc l).Perm (acc ++ l) := by
  induction l generalizing acc with
  | nil => simp [sortAux]
  | cons x xs ih =>
    simp only [sortAux]
    refine (ih (insertSub x acc)).trans ?_
    have h1 : (insertSub x acc ++ xs).Perm ((x :: acc) ++ xs) :=
      (insertSub_perm x acc).append_right xs
    refine h1.trans ?_
    simp only [List.cons_append]
    exact (List.perm_middle).symm

theorem sortAux_sorted (acc l : List Subscriber) (h : SortedDesc acc) :
    SortedDesc (sortAux acc l) := by
  induction l generalizing acc with
  | nil => simpa [sortAux]
  | cons x xs ih =>
    simp only [sortAux]
    exact ih _ (insertSub_sorted x acc h)

theorem sortAux_filter (acc l : List Subscriber) (p : Int) (h : SortedDesc acc) :
    (sortAux acc l).filter (fun sub => decide (sub.priority = p)) =
      acc.filter (fun sub => decide (sub.priority = p)) ++
        l.filter (fun sub => decide (sub.priority = p)) := by
  induction l generalizing acc with
  | nil => simp [sortAux]
  | cons x xs ih =>
    simp only [sortAux]
    rw [ih _ (insertSub_sorted x acc h)]
    by_cases hp : x.priority = p
    · subst hp
      rw [insertSub_filter_self x acc h]
      rw [List.filter_cons_of_pos (by simp)]
      simp
    · rw [insertSub_filter_ne x acc p hp]
      rw [List.filter_cons_of_neg (by simpa using hp)]

theorem sortSubs_perm (l : List Subscriber) : (sortSubs l).Perm l := by
  simpa [sortSubs] using sortAux_perm [] l

theorem mem_sortSubs {sub : Subscriber} {l : List Subscriber} :
    sub ∈ sortSubs l ↔ sub ∈ l :=
  (sortSubs_perm l).mem_iff

theorem sortSubs_sorted (l : List Subscriber) : SortedDesc (sortSubs l) :=
  sortAux_sorted [] l (by simp [SortedDesc])

theorem sortSubs_filter (l : List Subscriber) (p : Int) :
    (sortSubs l).filter (fun sub => decide (sub.priority = p)) =
      l.filter (fun sub => decide (sub.priority = p)) := by
  simpa [sortSubs] using sortAux_filter [] l p (by simp [SortedDesc])

/-! Dispatch-loop lemmas. -/

theorem dispatchSync_events {args : Finset Str} {l : List Subscriber} {ev : Event}
    (h : ev ∈ (dispatchSync args l).1) :
    ∃ sub ∈ l, sub.is_async = false ∧ ev = Event.invoke sub false args := by
  induction l with
  | nil => simp [dispatchSync] at h
  | cons sub rest ih =>
    simp only [dispatchSync] at h
    split at h
    · obtain ⟨s2, hs2, h3, h4⟩ := ih h
      exact ⟨s2, List.mem_cons_of_mem _ hs2, h3, h4⟩
    · rename_i hasync
      split at h
      · simp at h
      · rcases List.mem_cons.1 h with h1 | h1
        · exact ⟨sub, List.mem_cons_self _ _, by simpa using hasync, h1⟩
        · obtain ⟨s2, hs2, h3, h4⟩ := ih h1
          exact ⟨s2, List.mem_cons_of_mem _ hs2, h3, h4⟩

theorem dispatchSync_err {args : Finset Str} {l : List Subscriber} {e : BrokerError}
    (h : (dispatchSync args l).2 = some e) : e = BrokerError.typeError := by
  induction l with
  | nil => simp [dispatchSync] at h
  | cons sub rest ih =>
    simp only [dispatchSync] at h
    split at h
    · exact ih h
    · split at h
      · simpa using h.symm
      · exact ih h

theorem dispatchSync_live (args : Finset Str) (l : List Subscriber) (h : LiveList l) :
    dispatchSync args l =
      ((l.filter (fun sub => !sub.is_async)).map
        (fun sub => Event.invoke sub false args), none) := by
  induction l with
  | nil => simp [dispatchSync]
  | cons sub rest ih =>
    have hrest : LiveList rest := fun s2 hs2 => h s2 (List.mem_cons_of_mem _ hs2)
    have hsub : sub.weak_callback ≠ none := h sub (List.mem_cons_self _ _)
    simp only [dispatchSync]
    split
    · rename_i ha
      rw [ih hrest, List.filter_cons_of_neg (by simpa using ha)]
    · rename_i ha
      rcases hcb : sub.callback with _ | c
      · exact absurd hcb hsub
      · rw [ih hrest, List.filter_cons_of_pos (by simpa using ha)]
        simp

theorem dispatchSyncAll_events {N : Str} {args : Finset Str}
    {kl : List (Str × List Subscriber)} {ev : Event}
    (h : ev ∈ (dispatchSyncAll N args kl).1) :
    ∃ kv ∈ kl, matchesNs N kv.1 = true ∧
      ∃ sub ∈ kv.2, sub.is_async = false ∧ ev = Event.invoke sub false args := by
  induction kl with
  | nil => simp [dispatchSyncAll] at h
  | cons kv rest ih =>
    simp only [dispatchSyncAll] at h
    split at h
    · rename_i hm
      split at h
      · obtain ⟨sub, hs, h3, h4⟩ := dispatchSync_events h
        exact ⟨kv, List.mem_cons_self _ _, hm, sub, mem_sortSubs.1 hs, h3, h4⟩
      · rcases List.mem_append.1 h with h1 | h1
        · obtain ⟨sub, hs, h3, h4⟩ := dispatchSync_events h1
          exact ⟨kv, List.mem_cons_self _ _, hm, sub, mem_sortSubs.1 hs, h3, h4⟩
        · obtain ⟨kv2, hk2, h2, rest2⟩ := ih h1
          exact ⟨kv2, List.mem_cons_of_mem _ hk2, h2, rest2⟩
    · obtain ⟨kv2, hk2, h2, rest2⟩ := ih h
      exact ⟨kv2, List.mem_cons_of_mem _ hk2, h2, rest2⟩

theorem dispatchSyncAll_err {N : Str} {args : Finset Str}
    {kl : List (Str × List Subscriber)} {e : BrokerError}
    (h : (dispatchSyncAll N args kl).2 = some e) : e = BrokerError.typeError := by
  induction kl with
  | nil => simp [dispatchSyncAll] at h
  | cons kv rest ih =>
    simp only [dispatchSyncAll] at h
    split at h
    · split at h
      · rename_i e1 heq
        have h1 : e1 = e := by simpa using h
        exact h1 ▸ dispatchSync_err heq
      · exact ih h
    · exact ih h

theorem dispatchSyncAll_live (N : Str) (args : Finset Str)
    (kl : List (Str × List Subscriber))
    (h : ∀ kv ∈ kl, matchesNs N kv.1 = true → LiveList kv.2) :
    dispatchSyncAll N args kl =
      (((((kl.filter (fun kv => matchesNs N kv.1)).map
            (fun kv => sortSubs kv.2)).flatten).filter
          (fun sub => !sub.is_async)).map
        (fun sub => Event.invoke sub false args), none) := by
  induction kl with
  | nil => simp [dispatchSyncAll]
  | cons kv rest ih =>
    have hrest : ∀ kv2 ∈ rest, matchesNs N kv2.1 = true → LiveList kv2.2 :=
      fun kv2 h2 hm => h kv2 (List.mem_cons_of_mem _ h2) hm
    simp only [dispatchSyncAll]
    split
    · rename_i hm
      have hlive : LiveList (sortSubs kv.2) := fun sub hs =>
        h kv (List.mem_cons_self _ _) hm sub (mem_sortSubs.1 hs)
      rw [dispatchSync_live args _ hlive, ih hrest]
      simp [hm, List.filter_append]
    · rename_i hm
      rw [ih hrest]
      simp [hm]

theorem dispatchAsync_err {args : Finset Str} {l : List Subscriber} {e : BrokerError}
    (h : (dispatchAsync args l).2 = some e) : e = BrokerError.typeError := by
  induction l with
  | nil => simp [dispatchAsync] at h
  | cons sub rest ih =>
    simp only [dispatchAsync] at h
    split at h
    · have h1 : BrokerError.typeError = e := by simpa using h
      exact h1.symm
    · exact ih h

theorem dispatchAsync_live (args : Finset Str) (l : List Subscriber) (h : LiveList l) :
    dispatchAsync args l =
      (l.map (fun sub => Event.invoke sub sub.is_async args), none) := by
  induction l with
  | nil => simp [dispatchAsync]
  | cons sub rest ih =>
    have hrest : LiveList rest := fun s2 hs2 => h s2 (List.mem_cons_of_mem _ hs2)
    have hsub : sub.weak_callback ≠ none := h sub (List.mem_cons_self _ _)
    simp only [dispatchAsync]
    rcases hcb : sub.callback with _ | c
    · exact absurd hcb hsub
    · rw [ih hrest]
      simp

theorem dispatchAsyncAll_err {N : Str} {args : Finset Str}
    {kl : List (Str × List Subscriber)} {e : BrokerError}
    (h : (dispatchAsyncAll N args kl).2 = some e) : e = BrokerError.typeError := by
  induction kl with
  | nil => simp [dispatchAsyncAll] at h
  | cons kv rest ih =>
    simp only [dispatchAsyncAll] at h
    split at h
    · split at h
      · rename_i e1 heq
        have h1 : e1 = e := by simpa using h
        exact h1 ▸ dispatchAsync_err heq
      · exact ih h
    · exact ih h

theorem dispatchAsyncAll_live (N : Str) (args : Finset Str)
    (kl : List (Str × List Subscriber))
    (h : ∀ kv ∈ kl, matchesNs N kv.1 = true → LiveList kv.2) :
    dispatchAsyncAll N args kl =
      ((((kl.filter (fun kv => matchesNs N kv.1)).map
            (fun kv => sortSubs kv.2)).flatten).map
        (fun sub => Event.invoke sub sub.is_async args), none) := by
  induction kl with
  | nil => simp [dispatchAsyncAll]
  | cons kv rest ih =>
    have hrest : ∀ kv2 ∈ rest, matchesNs N kv2.1 = true → LiveList kv2.2 :=
      fun kv2 h2 hm => h kv2 (List.mem_cons_of_mem _ h2) hm
    simp only [dispatchAsyncAll]
    split
    · rename_i hm
      have hlive : LiveList (sortSubs kv.2) := fun sub hs =>
        h kv (List.mem_cons_self _ _) hm sub (mem_sortSubs.1 hs)
      rw [dispatchAsync_live args _ hlive, ih hrest]
      simp [hm]
    · rename_i hm
      rw [ih hrest]
      simp [hm]

/-! Validation and emit lemmas. -/

theorem sigCheck_iff (s : BrokerState) (k : Str) (P : Finset Str) :
    ((match sigGet s k with
      | none => false
      | some expected => decide (expected ≠ P)) = true) ↔
      ∃ exp, sigGet s k = some exp ∧ exp ≠ P := by
  rcases hs : sigGet s k with _ | exp <;> simp [hs]

theorem validateEmitArgs_cases (s : BrokerState) (N : Str) (P : Finset Str) :
    validateEmitArgs s N P = none ∨
      validateEmitArgs s N P = some BrokerError.emitArgument := by
  unfold validateEmitArgs
  split
  · exact Or.inr rfl
  · exact Or.inl rfl

theorem validateEmitArgs_some_iff (s : BrokerState) (N : Str) (P : Finset Str) :
    validateEmitArgs s N P ≠ none ↔
      ∃ kv ∈ s.subscribers, matchesNs N kv.1 = true ∧
        ∃ exp, sigGet s kv.1 = some exp ∧ exp ≠ P := by
  unfold validateEmitArgs
  split
  · rename_i hc
    simp only [ne_eq, reduceCtorEq, not_false_eq_true, true_iff]
    obtain ⟨k, hk, hchk⟩ := List.any_eq_true.1 hc
    obtain ⟨hk1, hk2⟩ := List.mem_filter.1 hk
    obtain ⟨kv, hkv, hfst⟩ := List.mem_map.1 hk1
    refine ⟨kv, hkv, by rwa [hfst], ?_⟩
    rw [hfst]
    exact (sigCheck_iff s k P).1 hchk
  · rename_i hc
    simp only [ne_eq, not_true_eq_false, false_iff]
    rintro ⟨kv, hkv, hm, exp, hexp, hne⟩
    apply hc
    refine List.any_eq_true.2 ⟨kv.1, List.mem_filter.2 ⟨List.mem_map.2 ⟨kv, hkv, rfl⟩, hm⟩, ?_⟩
    exact (sigCheck_iff s kv.1 P).2 ⟨exp, hexp, hne⟩

theorem emitCore_err {s : BrokerState} {N : Str} {P : Finset Str} {e : BrokerError}
    (h : (emitCore s N P).2 = some e) :
    e = BrokerError.emitArgument ∨ e = BrokerError.typeError := by
  unfold emitCore at h
  rcases validateEmitArgs_cases s N P with hv | hv <;> rw [hv] at h
  · exact Or.inr (dispatchSyncAll_err h)
  · exact Or.inl (by simpa using h.symm)

theorem emitCore_emitArgument_iff (s : BrokerState) (N : Str) (P : Finset Str) :
    (emitCore s N P).2 = some BrokerError.emitArgument ↔
      validateEmitArgs s N P ≠ none := by
  unfold emitCore
  rcases validateEmitArgs_cases s N P with hv | hv <;> rw [hv]
  · simp only [ne_eq, not_true_eq_false, iff_false]
    intro hd
    simpa using dispatchSyncAll_err hd
  · simp

theorem emitAsyncCore_emitArgument_iff (s : BrokerState) (N : Str) (P : Finset Str) :
    (emitAsyncCore s N P).2 = some BrokerError.emitArgument ↔
      validateEmitArgs s N P ≠ none := by
  unfold emitAsyncCore
  rcases validateEmitArgs_cases s N P with hv | hv <;> rw [hv]
  · simp only [ne_eq, not_true_eq_false, iff_false]
    intro hd
    simpa using dispatchAsyncAll_err hd
  · simp

theorem emitCore_events_validate_fail (s : BrokerState) (N : Str) (P : Finset Str)
    (h : validateEmitArgs s N P ≠ none) : (emitCore s N P).1 = [] := by
  unfold emitCore
  rcases validateEmitArgs_cases s N P with hv | hv
  · exact absurd hv h
  · rw [hv]

theorem emitAsyncCore_events_validate_fail (s : BrokerState) (N : Str) (P : Finset Str)
    (h : validateEmitArgs s N P ≠ none) : (emitAsyncCore s N P).1 = [] := by
  unfold emitAsyncCore
  rcases validateEmitArgs_cases s N P with hv | hv
  · exact absurd hv h
  · rw [hv]

theorem emit_flags_off (s : BrokerState) (N : Str) (P : Finset Str)
    (h1 : s.notify_on_emit = false) (h2 : s.notify_on_emit_all = false) :
    emit s N P = emitCore s N P := by
  unfold emit
  rcases he : (emitCore s N P).2 with _ | e
  · have hcond : (!reservedNs N && (s.notify_on_emit || s.notify_on_emit_all)) = false := by
      rw [h1, h2]
      simp
    simp only [hcond, Bool.false_eq_true, if_false]
    exact Prod.ext rfl he.symm
  · exact Prod.ext rfl he.symm

theorem emitAsync_flags_off (s : BrokerState) (N : Str) (P : Finset Str)
    (h1 : s.notify_on_emit_async = false) (h2 : s.notify_on_emit_all = false) :
    emitAsync s N P = emitAsyncCore s N P := by
  unfold emitAsync
  rcases he : (emitAsyncCore s N P).2 with _ | e
  · have hcond :
        (!reservedNs N && (s.notify_on_emit_async || s.notify_on_emit_all)) = false := by
      rw [h1, h2]
      simp
    simp only [hcond, Bool.false_eq_true, if_false]
    exact Prod.ext rfl he.symm
  · exact Prod.ext rfl he.symm

theorem emit_reserved_eq_emitCore (s : BrokerState) (N : Str) (P : Finset Str)
    (h : reservedNs N = true) : emit s N P = emitCore s N P := by
  unfold emit
  rcases he : (emitCore s N P).2 with _ | e
  · have hcond : (!reservedNs N && (s.notify_on_emit || s.notify_on_emit_all)) = false := by
      rw [h]
      simp
    simp only [hcond, Bool.false_eq_true, if_false]
    exact Prod.ext rfl he.symm
  · exact Prod.ext rfl he.symm

theorem emitAsync_reserved_eq_core (s : BrokerState) (N : Str) (P : Finset Str)
    (h : reservedNs N = true) : emitAsync s N P = emitAsyncCore s N P := by
  unfold emitAsync
  rcases he : (emitAsyncCore s N P).2 with _ | e
  · have hcond :
        (!reservedNs N && (s.notify_on_emit_async || s.notify_on_emit_all)) = false := by
      rw [h]
      simp
    simp only [hcond, Bool.false_eq_true, if_false]
    exact Prod.ext rfl he.symm
  · exact Prod.ext rfl he.symm

theorem emitCore_no_notify (s : BrokerState) (N : Str) (P : Finset Str) :
    NoNotifEvents (emitCore s N P).1 := by
  intro c u hmem
  unfold emitCore at hmem
  rcases validateEmitArgs_cases s N P with hv | hv <;> rw [hv] at hmem
  · obtain ⟨kv, _, _, sub, _, _, hev⟩ := dispatchSyncAll_events hmem
    simp at hev
  · simp at hmem

/-! Namespace-matcher characterization. -/

theorem matchesNs_iff (e p : Str) :
    matchesNs e p = true ↔
      e = p ∨ (strEndsWith p dotStar = true ∧
        ∃ t : Str, e = p.take (p.length - 2) ++ dotStr ++ t) := by
  unfold matchesNs
  split
  · rename_i heq
    exact iff_of_true rfl (Or.inl (by simpa using heq))
  · rename_i heq
    have hne : ¬ e = p := by simpa using heq
    split
    · rename_i hend
      unfold strStartsWith
      rw [List.isPrefixOf_iff_prefix]
      constructor
      · rintro ⟨t, ht⟩
        exact Or.inr ⟨hend, t, ht.symm⟩
      · rintro (h1 | ⟨h2, t, ht⟩)
        · exact absurd h1 hne
        · exact ⟨t, ht.symm⟩
    · rename_i hend
      refine iff_of_false (by simp) ?_
      rintro (h1 | ⟨h2, t, ht⟩)
      · exact hne h1
      · exact hend h2

theorem matchesNs_bare_root (root : Str) :
    matchesNs root (root ++ dotStar) = false := by
  have hds : dotStar.length = 2 := by decide
  have hd1 : dotStr.length = 1 := by decide
  have hne : ¬ root = root ++ dotStar := by
    intro hh
    have hlen := congrArg List.length hh
    rw [List.length_append, hds] at hlen
    omega
  have htake : (root ++ dotStar).take ((root ++ dotStar).length - 2) = root := by
    have hlen : (root ++ dotStar).length - 2 = root.length := by
      rw [List.length_append, hds]
      omega
    rw [hlen]
    exact List.take_left root dotStar
  unfold matchesNs
  rw [if_neg (by simpa using hne)]
  split
  · rw [htake]
    unfold strStartsWith
    cases hpre : (root ++ dotStr).isPrefixOf root
    · rfl
    · exfalso
      have hle := (List.isPrefixOf_iff_prefix.1 hpre).length_le
      rw [List.length_append, hd1] at hle
      omega
  · rfl

/-! Event-shape lemmas for the emit paths. -/

theorem notifyEmit_events_shape (s : BrokerState) (ch carried : Str) :
    (notifyEmit s ch carried).1 =
      Event.notify ch carried :: (emitCore s ch {usingStr}).1 := by
  simp [notifyEmit]

theorem notifyEmit_err {s : BrokerState} {ch carried : Str} {e : BrokerError}
    (h : (notifyEmit s ch carried).2 = some e) :
    e = BrokerError.emitArgument ∨ e = BrokerError.typeError := by
  simp only [notifyEmit] at h
  exact emitCore_err h

theorem emitCore_invoke {s : BrokerState} {N : Str} {P : Finset Str}
    {sub : Subscriber} {aw : Bool} {args : Finset Str}
    (h : Event.invoke sub aw args ∈ (emitCore s N P).1) :
    sub.is_async = false ∧ aw = false := by
  unfold emitCore at h
  rcases validateEmitArgs_cases s N P with hv | hv <;> rw [hv] at h
  · obtain ⟨kv, _, _, sub2, _, h3, h4⟩ := dispatchSyncAll_events h
    injection h4 with hsub haw hargs
    subst hsub haw
    exact ⟨h3, rfl⟩
  · simp at h

theorem notifyEmit_invoke {s : BrokerState} {ch carried : Str}
    {sub : Subscriber} {aw : Bool} {args : Finset Str}
    (h : Event.invoke sub aw args ∈ (notifyEmit s ch carried).1) :
    sub.is_async = false ∧ aw = false := by
  rw [notifyEmit_events_shape] at h
  rcases List.mem_cons.1 h with h1 | h1
  · simp at h1
  · exact emitCore_invoke h1

theorem emit_invoke_sync {s : BrokerState} {N : Str} {P : Finset Str}
    {sub : Subscriber} {aw : Bool} {args : Finset Str}
    (h : Event.invoke sub aw args ∈ (emit s N P).1) :
    sub.is_async = false ∧ aw = false := by
  unfold emit at h
  split at h
  · exact emitCore_invoke h
  · split at h
    · rcases List.mem_append.1 h with h1 | h1
      · exact emitCore_invoke h1
      · exact notifyEmit_invoke h1
    · exact emitCore_invoke h

/-! Reserved-namespace guard lemmas: operations on a namespace under
the notification root perform no notification emission. -/

theorem registerPhase3_reserved (s : BrokerState) (ns : Str) (subscriber : Subscriber)
    (evs : List Event) (h : reservedNs ns = true) :
    registerPhase3 s ns subscriber evs = (registerState3 s ns subscriber, evs, none) := by
  unfold registerPhase3
  rw [if_neg (by simp [h])]

theorem registerPhase2_reserved (s : BrokerState) (ns : Str) (subscriber : Subscriber)
    (h : reservedNs ns = true) : (registerPhase2 s ns subscriber).2.1 = [] := by
  unfold registerPhase2
  split
  · rw [registerPhase3_reserved _ _ _ _ h]
  · rw [if_neg (by simp [h]), registerPhase3_reserved _ _ _ _ h]

theorem registerSubscriber_reserved (s : BrokerState) (ns : Str) (cb : Nat)
    (params : Option (Finset Str)) (prio : Int) (ia : Bool) (h : reservedNs ns = true) :
    (registerSubscriber s ns cb params prio ia).2.1 = [] := by
  unfold registerSubscriber
  split
  · exact registerPhase2_reserved _ _ _ h
  · split
    · exact registerPhase2_reserved _ _ _ h
    · split
      · rfl
      · exact registerPhase2_reserved _ _ _ h

theorem unregisterPhase2_reserved (s : BrokerState) (ns : Str)
    (filtered : List Subscriber) (evs : List Event) (h : reservedNs ns = true) :
    (unregisterPhase2 s ns filtered evs).2.1 = evs := by
  unfold unregisterPhase2
  split
  · rw [if_neg (by simp [h])]
  · rfl

theorem unregisterGo_reserved (s : BrokerState) (ns : Str) (filtered : List Subscriber)
    (h : reservedNs ns = true) : (unregisterGo s ns filtered).2.1 = [] := by
  unfold unregisterGo
  rw [if_neg (by simp [h])]
  exact unregisterPhase2_reserved _ _ _ _ h

theorem unregisterSubscriber_reserved (s : BrokerState) (ns : Str) (cb : Nat)
    (h : reservedNs ns = true) : (unregisterSubscriber s ns cb).2.1 = [] := by
  unfold unregisterSubscriber
  split
  · rfl
  · exact unregisterGo_reserved _ _ _ h

theorem onCallbackCollected_reserved (s : BrokerState) (ns : Str)
    (h : reservedNs ns = true) : (onCallbackCollected s ns).2.1 = [] := by
  unfold onCallbackCollected
  rw [if_neg (by simp [h])]

/-! Invariant machinery. -/

theorem containsA_setA {α : Type} (l : List (Str × α)) (k : Str) (v : α) (k' : Str) :
    containsA (setA l k v) k' = (k' == k || containsA l k') := by
  by_cases h : k' = k
  · subst h
    rw [containsA_setA_self]
    simp
  · rw [containsA_setA_ne _ _ _ _ h]
    have hb : (k' == k) = false := by simpa using h
    rw [hb]
    simp

theorem strongInv_registryInv (s : BrokerState) (h : StrongInv s) : RegistryInv s := by
  refine ⟨fun k => ?_, h.2⟩
  constructor
  · intro hc
    rw [containsA_eq_isSome_lookupA] at hc
    rcases hl : lookupA s.subscribers k with _ | l
    · rw [hl] at hc
      simp at hc
    · obtain ⟨hne, hlive⟩ := h.1 k l hl
      rcases l with _ | ⟨sub, rest⟩
      · exact absurd rfl hne
      · exact ⟨sub :: rest, rfl, sub, List.mem_cons_self _ _,
          hlive sub (List.mem_cons_self _ _)⟩
  · rintro ⟨l, hl, -⟩
    rw [containsA_eq_isSome_lookupA, hl]
    rfl

theorem registerPhase3_fst (s : BrokerState) (ns : Str) (subscriber : Subscriber)
    (evs : List Event) :
    (registerPhase3 s ns subscriber evs).1 = registerState3 s ns subscriber := by
  unfold registerPhase3
  split <;> rfl

theorem strongInv_registerPhase3 {s : BrokerState} {ns : Str} {subscriber : Subscriber}
    (hp1 : ∀ k l, k ≠ ns → lookupA s.subscribers k = some l → l ≠ [] ∧ LiveList l)
    (hold : LiveList ((lookupA s.subscribers ns).getD []))
    (hc2 : ∀ k, containsA s.namespaceSignatures k = (k == ns || containsA s.subscribers k))
    (hlive : subscriber.weak_callback ≠ none) :
    StrongInv (registerState3 s ns subscriber) := by
  have hsubs : (registerState3 s ns subscriber).subscribers =
      setA s.subscribers ns ((lookupA s.subscribers ns).getD [] ++ [subscriber]) := rfl
  have hsigs : (registerState3 s ns subscriber).namespaceSignatures =
      s.namespaceSignatures := rfl
  constructor
  · intro k l hl
    rw [hsubs] at hl
    by_cases hk : k = ns
    · subst hk
      rw [lookupA_setA_self] at hl
      cases hl
      refine ⟨by simp, ?_⟩
      intro sub hsub
      rcases List.mem_append.1 hsub with h1 | h1
      · exact hold sub h1
      · rw [List.mem_singleton] at h1
        subst h1
        exact hlive
    · rw [lookupA_setA_ne _ _ _ _ hk] at hl
      exact hp1 k l hk hl
  · intro k
    rw [hsigs, hsubs, containsA_setA, hc2 k]

theorem strongInv_registerPhase2 {s : BrokerState} {ns : Str} {subscriber : Subscriber}
    {s2 : BrokerState} {evs : List Event}
    (hp1 : ∀ k l, lookupA s.subscribers k = some l → l ≠ [] ∧ LiveList l)
    (hc2 : ∀ k, containsA s.namespaceSignatures k = (k == ns || containsA s.subscribers k))
    (hlive : subscriber.weak_callback ≠ none)
    (h : registerPhase2 s ns subscriber = (s2, evs, none)) :
    StrongInv s2 := by
  unfold registerPhase2 at h
  split at h
  · rename_i hc
    have hs2 : s2 = registerState3 s ns subscriber := by
      have h3 := registerPhase3_fst s ns subscriber []
      rw [h] at h3
      exact h3
    subst hs2
    refine strongInv_registerPhase3 (fun k l _ hl => hp1 k l hl) ?_ hc2 hlive
    rw [containsA_eq_isSome_lookupA] at hc
    rcases hl : lookupA s.subscribers ns with _ | l0
    · rw [hl] at hc
      simp at hc
    · exact fun sub hsub => (hp1 ns l0 hl).2 sub hsub
  · rename_i hc
    have hc' : containsA s.subscribers ns = false := by
      cases hcc : containsA s.subscribers ns
      · rfl
      · exact absurd hcc hc
    have hlk : lookupA s.subscribers ns = none := by
      rw [containsA_eq_isSome_lookupA] at hc'
      rcases hll : lookupA s.subscribers ns with _ | l0
      · rfl
      · rw [hll] at hc'
        simp at hc'
    have hp1' : ∀ k l, k ≠ ns →
        lookupA (registerState2 s ns).subscribers k = some l → l ≠ [] ∧ LiveList l := by
      intro k l hk hl
      have : (registerState2 s ns).subscribers = setA s.subscribers ns [] := rfl
      rw [this, lookupA_setA_ne _ _ _ _ hk] at hl
      exact hp1 k l hl
    have hold' : LiveList ((lookupA (registerState2 s ns).subscribers ns).getD []) := by
      have : (registerState2 s ns).subscribers = setA s.subscribers ns [] := rfl
      rw [this, lookupA_setA_self]
      intro sub hsub
      simp at hsub
    have hc2' : ∀ k, containsA (registerState2 s ns).namespaceSignatures k =
        (k == ns || containsA (registerState2 s ns).subscribers k) := by
      intro k
      have h1 : (registerState2 s ns).namespaceSignatures = s.namespaceSignatures := rfl
      have h2 : (registerState2 s ns).subscribers = setA s.subscribers ns [] := rfl
      rw [h1, h2, containsA_setA, hc2 k, ← Bool.or_assoc, Bool.or_self]
    split at h
    · split at h
      · simp at h
      · have hs2 : s2 = registerState3 (registerState2 s ns) ns subscriber := by
          have h3 := registerPhase3_fst (registerState2 s ns) ns subscriber
            (notifyEmit (registerState2 s ns) BROKER_ON_NAMESPACE_CREATED ns).1
          rw [h] at h3
          exact h3
        subst hs2
        exact strongInv_registerPhase3 hp1' hold' hc2' hlive
    · have hs2 : s2 = registerState3 (registerState2 s ns) ns subscriber := by
        have h3 := registerPhase3_fst (registerState2 s ns) ns subscriber []
        rw [h] at h3
        exact h3
      subst hs2
      exact strongInv_registerPhase3 hp1' hold' hc2' hlive

theorem strongInv_register {s : BrokerState} {ns : Str} {cb : Nat}
    {params : Option (Finset Str)} {prio : Int} {ia : Bool}
    {s2 : BrokerState} {evs : List Event}
    (hinv : StrongInv s)
    (h : registerSubscriber s ns cb params prio ia = (s2, evs, none)) :
    StrongInv s2 := by
  unfold registerSubscriber at h
  split at h
  · rename_i hlk
    refine strongInv_registerPhase2 ?_ ?_ (by simp) h
    · exact hinv.1
    · intro k
      have h1 : ({ s with namespaceSignatures := setA s.namespaceSignatures ns params } :
          BrokerState).namespaceSignatures = setA s.namespaceSignatures ns params := rfl
      rw [h1, containsA_setA, hinv.2 k]
  · rename_i existing hlk
    split at h
    · refine strongInv_registerPhase2 ?_ ?_ (by simp) h
      · exact hinv.1
      · intro k
        have h1 : ({ s with namespaceSignatures := setA s.namespaceSignatures ns none } :
            BrokerState).namespaceSignatures = setA s.namespaceSignatures ns none := rfl
        rw [h1, containsA_setA, hinv.2 k]
    · split at h
      · simp at h
      · refine strongInv_registerPhase2 ?_ ?_ (by simp) h
        · exact hinv.1
        · intro k
          have hcs : containsA s.namespaceSignatures ns = true := by
            rw [containsA_eq_isSome_lookupA, hlk]
            rfl
          by_cases hk : k = ns
          · subst hk
            rw [hinv.2 k] at hcs ⊢
            rw [hcs]
            simp
          · have hb : (k == ns) = false := by simpa using hk
            rw [hb, hinv.2 k]
            simp

theorem strongInv_clear (s : BrokerState) : StrongInv (clear s) := by
  constructor
  · intro k l hl
    simp [clear, lookupA] at hl
  · intro k
    rfl

theorem strongInv_unregisterPhase2 {s : BrokerState} {ns : Str}
    {filtered : List Subscriber} {evs0 : List Event} {s2 : BrokerState} {evs : List Event}
    (hp1 : ∀ k l, k ≠ ns → lookupA s.subscribers k = some l → l ≠ [] ∧ LiveList l)
    (hc2 : ∀ k, containsA s.namespaceSignatures k = containsA s.subscribers k)
    (hns : lookupA s.subscribers ns = some filtered)
    (hfl : LiveList filtered)
    (h : unregisterPhase2 s ns filtered evs0 = (s2, evs, none)) :
    StrongInv s2 := by
  have hcsubs : containsA s.subscribers ns = true := by
    rw [containsA_eq_isSome_lookupA, hns]
    rfl
  have hcsigs : containsA s.namespaceSignatures ns = true := by
    rw [hc2 ns]
    exact hcsubs
  have hdsubs : (unregisterDelState s ns).subscribers = eraseA s.subscribers ns := by
    unfold unregisterDelState
    rw [if_pos hcsigs]
  have hdsigs : (unregisterDelState s ns).namespaceSignatures =
      eraseA s.namespaceSignatures ns := by
    unfold unregisterDelState
    rw [if_pos hcsigs]
  have hdelInv : StrongInv (unregisterDelState s ns) := by
    constructor
    · intro k l hl
      rw [hdsubs] at hl
      by_cases hk : k = ns
      · subst hk
        rw [lookupA_eraseA_self] at hl
        cases hl
      · rw [lookupA_eraseA_ne _ _ _ hk] at hl
        exact hp1 k l hk hl
    · intro k
      rw [hdsigs, hdsubs]
      by_cases hk : k = ns
      · subst hk
        rw [containsA_eraseA_self, containsA_eraseA_self]
      · rw [containsA_eraseA_ne _ _ _ hk, containsA_eraseA_ne _ _ _ hk]
        exact hc2 k
  unfold unregisterPhase2 at h
  split at h
  · rename_i hempty
    split at h
    · rw [Prod.mk.injEq, Prod.mk.injEq] at h
      obtain ⟨h1, -, -⟩ := h
      rw [← h1]
      exact hdelInv
    · rw [Prod.mk.injEq, Prod.mk.injEq] at h
      obtain ⟨h1, -, -⟩ := h
      rw [← h1]
      exact hdelInv
  · rename_i hempty
    rw [Prod.mk.injEq, Prod.mk.injEq] at h
    obtain ⟨h1, -, -⟩ := h
    rw [← h1]
    constructor
    · intro k l hl
      by_cases hk : k = ns
      · subst hk
        rw [hns] at hl
        cases hl
        refine ⟨?_, hfl⟩
        intro hl0
        subst hl0
        simp at hempty
      · exact hp1 k l hk hl
    · exact hc2

theorem strongInv_unregisterGo {s : BrokerState} {ns : Str}
    {filtered : List Subscriber} {s2 : BrokerState} {evs : List Event}
    (hinv : StrongInv s)
    (hsubs0 : ∃ subs0, lookupA s.subscribers ns = some subs0 ∧
      filtered = subs0.filter (fun sub => sub.callback != some cb))
    (h : unregisterGo s ns filtered = (s2, evs, none)) :
    StrongInv s2 := by
  obtain ⟨subs0, hlk, hfdef⟩ := hsubs0
  have hcsubs : containsA s.subscribers ns = true := by
    rw [containsA_eq_isSome_lookupA, hlk]
    rfl
  have hs1subs : (unregisterState1 s ns filtered).subscribers =
      setA s.subscribers ns filtered := rfl
  have hs1sigs : (unregisterState1 s ns filtered).namespaceSignatures =
      s.namespaceSignatures := rfl
  have hp1' : ∀ k l, k ≠ ns →
      lookupA (unregisterState1 s ns filtered).subscribers k = some l →
        l ≠ [] ∧ LiveList l := by
    intro k l hk hl
    rw [hs1subs, lookupA_setA_ne _ _ _ _ hk] at hl
    exact hinv.1 k l hl
  have hc2' : ∀ k, containsA (unregisterState1 s ns filtered).namespaceSignatures k =
      containsA (unregisterState1 s ns filtered).subscribers k := by
    intro k
    rw [hs1sigs, hs1subs, containsA_setA, hinv.2 k]
    by_cases hk : k = ns
    · subst hk
      rw [hcsubs]
      simp
    · have hb : (k == ns) = false := by simpa using hk
      rw [hb]
      simp
  have hns' : lookupA (unregisterState1 s ns filtered).subscribers ns = some filtered := by
    rw [hs1subs, lookupA_setA_self]
  have hfl : LiveList filtered := by
    intro sub hsub
    rw [hfdef] at hsub
    have hsub0 : sub ∈ subs0 := (List.mem_filter.1 hsub).1
    exact (hinv.1 ns subs0 hlk).2 sub hsub0
  unfold unregisterGo at h
  split at h
  · split at h
    · simp at h
    · exact strongInv_unregisterPhase2 hp1' hc2' hns' hfl h
  · exact strongInv_unregisterPhase2 hp1' hc2' hns' hfl h

theorem strongInv_unregister {s : BrokerState} {ns : Str} {cb : Nat}
    {s2 : BrokerState} {evs : List Event}
    (hinv : StrongInv s)
    (h : unregisterSubscriber s ns cb = (s2, evs, none)) :
    StrongInv s2 := by
  unfold unregisterSubscriber at h
  split at h
  · rw [Prod.mk.injEq, Prod.mk.injEq] at h
    obtain ⟨h1, -, -⟩ := h
    rw [← h1]
    exact hinv
  · rename_i subs0 hlk
    exact strongInv_unregisterGo hinv ⟨subs0, hlk, rfl⟩ h

/-! Signature-rule support lemmas. -/

theorem registerPhase2_fst_sigs (s : BrokerState) (ns : Str) (subscriber : Subscriber) :
    (registerPhase2 s ns subscriber).1.namespaceSignatures = s.namespaceSignatures := by
  unfold registerPhase2
  split
  · rw [registerPhase3_fst]
    rfl
  · split
    · split
      · rfl
      · rw [registerPhase3_fst]
        rfl
    · rw [registerPhase3_fst]
      rfl

theorem registerPhase3_err {s : BrokerState} {ns : Str} {subscriber : Subscriber}
    {evs : List Event} {e : BrokerError}
    (h : (registerPhase3 s ns subscriber evs).2.2 = some e) :
    e = BrokerError.emitArgument ∨ e = BrokerError.typeError := by
  unfold registerPhase3 at h
  split at h
  · have h2 : (notifyEmit (registerState3 s ns subscriber)
        BROKER_ON_SUBSCRIBER_ADDED ns).2 = some e := h
    exact notifyEmit_err h2
  · simp at h

theorem registerPhase2_err {s : BrokerState} {ns : Str} {subscriber : Subscriber}
    {e : BrokerError} (h : (registerPhase2 s ns subscriber).2.2 = some e) :
    e = BrokerError.emitArgument ∨ e = BrokerError.typeError := by
  unfold registerPhase2 at h
  split at h
  · exact registerPhase3_err h
  · split at h
    · split at h
      · rename_i e1 heq
        have h1 : e1 = e := by simpa using h
        subst h1
        exact notifyEmit_err heq
      · exact registerPhase3_err h
    · exact registerPhase3_err h

theorem registerPhase3_mem (s : BrokerState) (ns : Str) (subscriber : Subscriber)
    (evs : List Event) :
    ∃ l, lookupA (registerPhase3 s ns subscriber evs).1.subscribers ns = some l ∧
      subscriber ∈ l := by
  rw [registerPhase3_fst]
  exact ⟨_, lookupA_setA_self _ _ _, List.mem_append_right _ (List.mem_cons_self _ _)⟩

theorem registerPhase2_mem {s : BrokerState} {ns : Str} {subscriber : Subscriber}
    {s2 : BrokerState} {evs : List Event}
    (h : registerPhase2 s ns subscriber = (s2, evs, none)) :
    ∃ l, lookupA s2.subscribers ns = some l ∧ subscriber ∈ l := by
  unfold registerPhase2 at h
  split at h
  · have h3 := registerPhase3_mem s ns subscriber []
    rw [h] at h3
    exact h3
  · split at h
    · split at h
      · simp at h
      · have h3 := registerPhase3_mem (registerState2 s ns) ns subscriber
          (notifyEmit (registerState2 s ns) BROKER_ON_NAMESPACE_CREATED ns).1
        rw [h] at h3
        exact h3
    · have h3 := registerPhase3_mem (registerState2 s ns) ns subscriber []
      rw [h] at h3
      exact h3

theorem unregisterDelState_subs (s : BrokerState) (ns : Str) :
    (unregisterDelState s ns).subscribers = eraseA s.subscribers ns := by
  unfold unregisterDelState
  split <;> rfl

theorem unregisterPhase2_keeps_sig {s : BrokerState} {ns : Str}
    {filtered : List Subscriber} {evs0 : List Event}
    (h : containsA (unregisterPhase2 s ns filtered evs0).1.subscribers ns = true) :
    lookupA (unregisterPhase2 s ns filtered evs0).1.namespaceSignatures ns =
      lookupA s.namespaceSignatures ns := by
  unfold unregisterPhase2 at h ⊢
  split at h
  · rename_i hempty
    exfalso
    split at h
    · have h2 : containsA (unregisterDelState s ns).subscribers ns = true := h
      rw [unregisterDelState_subs, containsA_eraseA_self] at h2
      simp at h2
    · have h2 : containsA (unregisterDelState s ns).subscribers ns = true := h
      rw [unregisterDelState_subs, containsA_eraseA_self] at h2
      simp at h2
  · rename_i hempty
    rw [if_neg hempty]

theorem unregisterGo_keeps_sig {s : BrokerState} {ns : Str} {filtered : List Subscriber}
    (h : containsA (unregisterGo s ns filtered).1.subscribers ns = true) :
    lookupA (unregisterGo s ns filtered).1.namespaceSignatures ns =
      lookupA s.namespaceSignatures ns := by
  unfold unregisterGo at h ⊢
  split at h
  · rename_i hguard
    rw [if_pos hguard]
    split at h
    · rfl
    · exact unregisterPhase2_keeps_sig h
  · rename_i hguard
    rw [if_neg hguard]
    exact unregisterPhase2_keeps_sig h

theorem unregister_keeps_sig (s : BrokerState) (ns : Str) (cb : Nat)
    (h : containsA (unregisterSubscriber s ns cb).1.subscribers ns = true) :
    lookupA (unregisterSubscriber s ns cb).1.namespaceSignatures ns =
      lookupA s.namespaceSignatures ns := by
  unfold unregisterSubscriber at h ⊢
  split at h
  · rfl
  · exact unregisterGo_keeps_sig h

theorem strongInv_init : StrongInv initState := by
  constructor
  · intro k l hl
    simp [initState, lookupA] at hl
  · intro k
    rfl

theorem dispatchAsync_events {args : Finset Str} {l : List Subscriber} {ev : Event}
    (h : ev ∈ (dispatchAsync args l).1) :
    ∃ sub ∈ l, ev = Event.invoke sub sub.is_async args := by
  induction l with
  | nil => simp [dispatchAsync] at h
  | cons sub rest ih =>
    simp only [dispatchAsync] at h
    split at h
    · simp at h
    · rcases List.mem_cons.1 h with h1 | h1
      · exact ⟨sub, List.mem_cons_self _ _, h1⟩
      · obtain ⟨s2, hs2, h2⟩ := ih h1
        exact ⟨s2, List.mem_cons_of_mem _ hs2, h2⟩

theorem dispatchAsyncAll_events {N : Str} {args : Finset Str}
    {kl : List (Str × List Subscriber)} {ev : Event}
    (h : ev ∈ (dispatchAsyncAll N args kl).1) :
    ∃ sub : Subscriber, ev = Event.invoke sub sub.is_async args := by
  induction kl with
  | nil => simp [dispatchAsyncAll] at h
  | cons kv rest ih =>
    simp only [dispatchAsyncAll] at h
    split at h
    · split at h
      · obtain ⟨sub, -, h2⟩ := dispatchAsync_events h
        exact ⟨sub, h2⟩
      · rcases List.mem_append.1 h with h1 | h1
        · obtain ⟨sub, -, h2⟩ := dispatchAsync_events h1
          exact ⟨sub, h2⟩
        · exact ih h1
    · exact ih h

theorem emitAsyncCore_no_notify (s : BrokerState) (N : Str) (P : Finset Str) :
    NoNotifEvents (emitAsyncCore s N P).1 := by
  intro c u hmem
  unfold emitAsyncCore at hmem
  rcases validateEmitArgs_cases s N P with hv | hv <;> rw [hv] at hmem
  · obtain ⟨sub, hev⟩ := dispatchAsyncAll_events hmem
    simp at hev
  · simp at hmem

theorem emit_events_mono {s : BrokerState} {N : Str} {P : Finset Str} {ev : Event}
    (h : ev ∈ (emitCore s N P).1) : ev ∈ (emit s N P).1 := by
  unfold emit
  split
  · exact h
  · split
    · exact List.mem_append_left _ h
    · exact h

/-! Concrete fixture states, built through the model's own operations so
that each is visibly reachable from a fresh broker. -/

def nsA : Str := "a".data

def nsAB : Str := "a.b".data

def nsAstar : Str := "a.*".data

def nsADot : Str := "a.".data

def xParams : Finset Str := {"x".data}

def yParams : Finset Str := {"y".data}

/-- One subscriber with parameter set x on namespace a. -/
def sSig : BrokerState := (registerSubscriber initState nsA 5 (some xParams) 0 false).1

/-- A priority-0 subscriber on the exact key a.b registered before a
priority-10 subscriber on the wildcard key a-dot-star. -/
def sC1state : BrokerState :=
  (registerSubscriber
    (registerSubscriber initState nsAB 1 (some ∅) 0 false).1
    nsAstar 2 (some ∅) 10 false).1

/-- One subscriber on namespace a whose callback was then garbage
collected. -/
def sDead : BrokerState :=
  killCallback (registerSubscriber initState nsA 7 (some ∅) 0 false).1 7

/-- A constrained subscriber on the reserved sync-emit channel, a
subscriber on namespace a, and the notify-on-emit flag enabled. -/
def sC4state : BrokerState :=
  setFlagSates
    ((registerSubscriber
      (registerSubscriber initState BROKER_ON_EMIT 3 (some xParams) 0 false).1
      nsA 4 (some ∅) 0 false).1)
    false false false true false false false false

/-- A fresh broker with the notify-on-subscribe flag enabled. -/
def sC9state : BrokerState :=
  setFlagSates initState true false false false false false false false

def subSyncA : Subscriber := ⟨some 11, 0, false, nsA⟩

def subAsyncA : Subscriber := ⟨some 12, 5, true, nsA⟩

/-- A synchronous and an asynchronous subscriber on namespace a, the
namespace unconstrained. -/
def sMix : BrokerState :=
  (registerSubscriber
    (registerSubscriber initState nsA 11 none 0 false).1
    nsA 12 none 5 true).1

/-! Claim theorems. -/

/-- C1 (counterexample): in a state reachable by registering a
priority-0 subscriber under the exact key a.b and then a priority-10
subscriber under the wildcard key a-dot-star, emitting to a.b invokes
the priority-0 subscriber first, although both keys match and the other
subscriber has strictly greater priority.  Sorting is per matching key
in key-insertion order, not over the whole collected set, refuting the
claimed global descending-priority order across keys. -/
theorem C1_counterexample :
    matchesNs nsAB nsAB = true ∧ matchesNs nsAB nsAstar = true ∧
    ((10 : Int) > 0) ∧
    (emit sC1state nsAB ∅).1 =
      [Event.invoke ⟨some 1, 0, false, nsAB⟩ false ∅,
       Event.invoke ⟨some 2, 10, false, nsAstar⟩ false ∅] := by
  refine ⟨by decide, by decide, by decide, by decide⟩

/-- C1 (amended): within one emit or emit_async call the subscribers
are invoked grouped by matching registry key in key-insertion order;
inside each group the key's subscribers are sorted by descending
priority with ties in registration order (the sort is a stable
permutation).  Formally: the per-key sort is a permutation, pairwise
descending, and preserves the relative order of equal priorities; and,
with the emit-notification flags off, a validated dispatch over live
subscribers produces exactly the per-key-grouped, per-key-sorted
invocation sequence: its non-async restriction for emit, and the whole
of it for emit_async. -/
theorem C1_amended :
    (∀ l : List Subscriber,
        (sortSubs l).Perm l ∧ SortedDesc (sortSubs l) ∧
        ∀ p : Int, (sortSubs l).filter (fun sub => decide (sub.priority = p)) =
          l.filter (fun sub => decide (sub.priority = p))) ∧
    (∀ (s : BrokerState) (N : Str) (P : Finset Str),
        s.notify_on_emit = false → s.notify_on_emit_all = false →
        validateEmitArgs s N P = none → AllLive s N →
        (emit s N P).1 =
          ((collectMatching s N).filter (fun sub => !sub.is_async)).map
            (fun sub => Event.invoke sub false P)) ∧
    (∀ (s : BrokerState) (N : Str) (P : Finset Str),
        s.notify_on_emit_async = false → s.notify_on_emit_all = false →
        validateEmitArgs s N P = none → AllLive s N →
        (emitAsync s N P).1 =
          (collectMatching s N).map (fun sub => Event.invoke sub sub.is_async P)) := by
  refine ⟨?_, ?_, ?_⟩
  · exact fun l => ⟨sortSubs_perm l, sortSubs_sorted l, fun p => sortSubs_filter l p⟩
  · intro s N P h1 h2 hv hl
    rw [emit_flags_off s N P h1 h2]
    unfold emitCore
    rw [hv, dispatchSyncAll_live N P s.subscribers hl]
    rfl
  · intro s N P h1 h2 hv hl
    rw [emitAsync_flags_off s N P h1 h2]
    unfold emitAsyncCore
    rw [hv, dispatchAsyncAll_live N P s.subscribers hl]
    rfl

/-- C1 (witness): the amended grouping equations for emit and
emit_async, evaluated on a concrete two-subscriber state. -/
theorem C1_witness :
    ((emit sMix nsA ∅).1 =
      ((collectMatching sMix nsA).filter (fun sub => !sub.is_async)).map
        (fun sub => Event.invoke sub false ∅)) ∧
    ((emitAsync sMix nsA ∅).1 =
      (collectMatching sMix nsA).map (fun sub => Event.invoke sub sub.is_async ∅)) :=
  ⟨C1_amended.2.1 sMix nsA ∅ (by decide) (by decide) (by decide) (by decide),
   C1_amended.2.2 sMix nsA ∅ (by decide) (by decide) (by decide) (by decide)⟩

/-- C2: emit never invokes an async-flagged subscriber and never awaits
anything (every invocation event of an emit call is a synchronous call
of a non-async subscriber); when validation passes and every matching
subscriber is live, emit invokes each non-async matching subscriber,
and emit_async invokes every matching subscriber in the fixed collected
order, awaiting exactly the async-flagged ones, each invocation
completing before the next (the trace is the sequential map over the
collected order). -/
theorem C2_confirmed :
    (∀ (s : BrokerState) (N : Str) (P : Finset Str) (sub : Subscriber) (aw : Bool)
        (args : Finset Str), Event.invoke sub aw args ∈ (emit s N P).1 →
        sub.is_async = false ∧ aw = false) ∧
    (∀ (s : BrokerState) (N : Str) (P : Finset Str),
        validateEmitArgs s N P = none → AllLive s N →
        ∀ sub ∈ collectMatching s N, sub.is_async = false →
          Event.invoke sub false P ∈ (emit s N P).1) ∧
    (∀ (s : BrokerState) (N : Str) (P : Finset Str),
        validateEmitArgs s N P = none → AllLive s N →
        ∃ t, (emitAsync s N P).1 =
          (collectMatching s N).map (fun sub => Event.invoke sub sub.is_async P) ++ t) := by
  refine ⟨fun s N P sub aw args h => emit_invoke_sync h, ?_, ?_⟩
  · intro s N P hv hl sub hsub hasync
    refine emit_events_mono ?_
    unfold emitCore
    rw [hv, dispatchSyncAll_live N P s.subscribers hl]
    exact List.mem_map.2 ⟨sub, List.mem_filter.2 ⟨hsub, by simp [hasync]⟩, rfl⟩
  · intro s N P hv hl
    have hcore : emitAsyncCore s N P =
        ((collectMatching s N).map (fun sub => Event.invoke sub sub.is_async P), none) := by
      unfold emitAsyncCore
      rw [hv, dispatchAsyncAll_live N P s.subscribers hl]
      rfl
    unfold emitAsync
    simp only [hcore]
    split
    · exact ⟨_, rfl⟩
    · exact ⟨[], by simp⟩

/-- C2 (witness): on a state with one synchronous and one asynchronous
subscriber on namespace a, emit invokes the synchronous one, and
emit_async's trace is the map over the collected order. -/
theorem C2_witness :
    (subSyncA.is_async = false ∧ false = false) ∧
    Event.invoke subSyncA false ∅ ∈ (emit sMix nsA ∅).1 ∧
    (∃ t, (emitAsync sMix nsA ∅).1 =
      (collectMatching sMix nsA).map (fun sub => Event.invoke sub sub.is_async ∅) ++ t) := by
  refine ⟨?_, ?_, ?_⟩
  · exact C2_confirmed.1 sMix nsA ∅ subSyncA false ∅ (by decide)
  · exact C2_confirmed.2.1 sMix nsA ∅ (by decide) (by decide) subSyncA (by decide) (by decide)
  · exact C2_confirmed.2.2 sMix nsA ∅ (by decide) (by decide)

/-- C3: the registration-time signature rule.  A first registration
records the callback's parameter set; if the record or the new set is
unconstrained the record becomes (or stays) unconstrained; two
differing constrained sets raise SignatureMismatchError; two equal
constrained sets leave the record unchanged; and unregistration never
changes a namespace's record while the namespace retains a registry
entry, so an unconstrained record persists after the unconstrained
subscriber is removed. -/
theorem C3_confirmed :
    (∀ (s : BrokerState) (ns : Str) (cb : Nat) (params : Option (Finset Str))
        (prio : Int) (ia : Bool), lookupA s.namespaceSignatures ns = none →
        (registerSubscriber s ns cb params prio ia).2.2 ≠ some BrokerError.sigMismatch ∧
        lookupA (registerSubscriber s ns cb params prio ia).1.namespaceSignatures ns =
          some params) ∧
    (∀ (s : BrokerState) (ns : Str) (cb : Nat) (params existing : Option (Finset Str))
        (prio : Int) (ia : Bool), lookupA s.namespaceSignatures ns = some existing →
        (existing = none ∨ params = none) →
        (registerSubscriber s ns cb params prio ia).2.2 ≠ some BrokerError.sigMismatch ∧
        lookupA (registerSubscriber s ns cb params prio ia).1.namespaceSignatures ns =
          some none) ∧
    (∀ (s : BrokerState) (ns : Str) (cb : Nat) (pe pn : Finset Str)
        (prio : Int) (ia : Bool),
        lookupA s.namespaceSignatures ns = some (some pe) → pe ≠ pn →
        registerSubscriber s ns cb (some pn) prio ia =
          (s, [], some BrokerError.sigMismatch)) ∧
    (∀ (s : BrokerState) (ns : Str) (cb : Nat) (pe : Finset Str) (prio : Int) (ia : Bool),
        lookupA s.namespaceSignatures ns = some (some pe) →
        (registerSubscriber s ns cb (some pe) prio ia).2.2 ≠ some BrokerError.sigMismatch ∧
        (registerSubscriber s ns cb (some pe) prio ia).1.namespaceSignatures =
          s.namespaceSignatures) ∧
    (∀ (s : BrokerState) (ns : Str) (cb : Nat),
        containsA (unregisterSubscriber s ns cb).1.subscribers ns = true →
        lookupA (unregisterSubscriber s ns cb).1.namespaceSignatures ns =
          lookupA s.namespaceSignatures ns) := by
  refine ⟨?_, ?_, ?_, ?_, fun s ns cb h => unregister_keeps_sig s ns cb h⟩
  · intro s ns cb params prio ia hlk
    have hbase : registerSubscriber s ns cb params prio ia =
        registerPhase2
          { s with namespaceSignatures := setA s.namespaceSignatures ns params }
          ns ⟨some cb, prio, ia, ns⟩ := by
      simp only [registerSubscriber, hlk]
    rw [hbase]
    constructor
    · intro hctr
      rcases registerPhase2_err hctr with h1 | h1 <;> simp at h1
    · rw [registerPhase2_fst_sigs]
      exact lookupA_setA_self _ _ _
  · intro s ns cb params existing prio ia hlk hor
    have hbase : registerSubscriber s ns cb params prio ia =
        registerPhase2
          { s with namespaceSignatures := setA s.namespaceSignatures ns none }
          ns ⟨some cb, prio, ia, ns⟩ := by
      simp only [registerSubscriber, hlk]
      rw [if_pos hor]
    rw [hbase]
    constructor
    · intro hctr
      rcases registerPhase2_err hctr with h1 | h1 <;> simp at h1
    · rw [registerPhase2_fst_sigs]
      exact lookupA_setA_self _ _ _
  · intro s ns cb pe pn prio ia hlk hne
    simp only [registerSubscriber, hlk]
    rw [if_neg (by simp), if_pos (by simpa using hne)]
  · intro s ns cb pe prio ia hlk
    have hbase : registerSubscriber s ns cb (some pe) prio ia =
        registerPhase2 s ns ⟨some cb, prio, ia, ns⟩ := by
      simp only [registerSubscriber, hlk]
      rw [if_neg (by simp), if_neg (by simp)]
    rw [hbase]
    constructor
    · intro hctr
      rcases registerPhase2_err hctr with h1 | h1 <;> simp at h1
    · exact registerPhase2_fst_sigs s ns _

/-- C3 (witness): concrete instances of the first-registration, the
mismatch, and the unregistration-persistence cases. -/
theorem C3_witness :
    ((registerSubscriber initState nsA 5 (some xParams) 0 false).2.2 ≠
        some BrokerError.sigMismatch ∧
      lookupA (registerSubscriber initState nsA 5 (some xParams) 0
        false).1.namespaceSignatures nsA = some (some xParams)) ∧
    registerSubscriber sSig nsA 6 (some yParams) 0 false =
      (sSig, [], some BrokerError.sigMismatch) ∧
    lookupA (unregisterSubscriber sMix nsA 11).1.namespaceSignatures nsA =
      lookupA sMix.namespaceSignatures nsA := by
  refine ⟨?_, ?_, ?_⟩
  · exact C3_confirmed.1 initState nsA 5 (some xParams) 0 false (by decide)
  · exact C3_confirmed.2.2.1 sSig nsA 6 xParams yParams 0 false (by decide) (by decide)
  · exact C3_confirmed.2.2.2.2 sMix nsA 11 (by decide)

/-- C4 (counterexample): with the notify-on-emit flag enabled and a
constrained subscriber registered on the reserved sync-emit channel, an
emit to namespace a whose own validation passes still raises
EmitArgumentError, from the trailing notification emission, and only
after the subscriber of a has been invoked; no registry key matching a
has a constrained expectation differing from the provided set, refuting
both the claimed iff and raising-before-any-subscriber. -/
theorem C4_counterexample :
    (emit sC4state nsA ∅).2 = some BrokerError.emitArgument ∧
    (emit sC4state nsA ∅).1 =
      [Event.invoke ⟨some 4, 0, false, nsA⟩ false ∅, Event.notify BROKER_ON_EMIT nsA] ∧
    validateEmitArgs sC4state nsA ∅ = none ∧
    sC4state.subscribers.all (fun kv => !matchesNs nsA kv.1 ||
      (match sigGet sC4state kv.1 with
        | none => true
        | some exp => decide (exp = ∅))) = true := by
  refine ⟨by decide, by decide, by decide, by decide⟩

/-- C4 (amended): when the emit-notification flags are disabled, an
emit or emit_async call raises EmitArgumentError exactly when some
registry key matching the emitted namespace has a constrained
expectation different from the provided keyword-name set, and a failed
validation means no subscriber was invoked (the event list is empty);
with a notify-on-emit flag enabled, the trailing self-notification may
additionally raise EmitArgumentError after the subscribers have run. -/
theorem C4_amended :
    (∀ (s : BrokerState) (N : Str) (P : Finset Str),
        s.notify_on_emit = false → s.notify_on_emit_all = false →
        (((emit s N P).2 = some BrokerError.emitArgument) ↔
          ∃ kv ∈ s.subscribers, matchesNs N kv.1 = true ∧
            ∃ exp, sigGet s kv.1 = some exp ∧ exp ≠ P) ∧
        (validateEmitArgs s N P ≠ none → (emit s N P).1 = [])) ∧
    (∀ (s : BrokerState) (N : Str) (P : Finset Str),
        s.notify_on_emit_async = false → s.notify_on_emit_all = false →
        (((emitAsync s N P).2 = some BrokerError.emitArgument) ↔
          ∃ kv ∈ s.subscribers, matchesNs N kv.1 = true ∧
            ∃ exp, sigGet s kv.1 = some exp ∧ exp ≠ P) ∧
        (validateEmitArgs s N P ≠ none → (emitAsync s N P).1 = [])) := by
  constructor
  · intro s N P h1 h2
    rw [emit_flags_off s N P h1 h2]
    exact ⟨(emitCore_emitArgument_iff s N P).trans (validateEmitArgs_some_iff s N P),
      emitCore_events_validate_fail s N P⟩
  · intro s N P h1 h2
    rw [emitAsync_flags_off s N P h1 h2]
    exact ⟨(emitAsyncCore_emitArgument_iff s N P).trans (validateEmitArgs_some_iff s N P),
      emitAsyncCore_events_validate_fail s N P⟩

/-- C4 (witness): the amended equivalence evaluated on a state with a
constrained subscriber, for a mismatching provided set. -/
theorem C4_witness :
    ((emit sSig nsA ∅).2 = some BrokerError.emitArgument ↔
      ∃ kv ∈ sSig.subscribers, matchesNs nsA kv.1 = true ∧
        ∃ exp, sigGet sSig kv.1 = some exp ∧ exp ≠ (∅ : Finset Str)) ∧
    (emit sSig nsA ∅).1 = [] := by
  obtain ⟨hiff, hev⟩ := C4_amended.1 sSig nsA ∅ (by decide) (by decide)
  exact ⟨hiff, hev (by decide)⟩

/-- C5 (counterexample): the event string a-dot does match the pattern
a-dot-star in the code, although it has no further character after the
root plus dot, while the claim as stated requires at least one further
character and therefore calls this a non-match. -/
theorem C5_counterexample :
    matchesNs nsADot nsAstar = true ∧ specMatchesClaim nsADot nsAstar = false := by
  refine ⟨by decide, by decide⟩

/-- C5 (amended): matching holds exactly when the strings are equal, or
the pattern ends in dot-star and the event equals the pattern's root
followed by a dot and a possibly empty remainder; in particular the
bare root never matches its own wildcard pattern, and every strict
extension root-dot-suffix does. -/
theorem C5_amended :
    (∀ e p : Str, matchesNs e p = true ↔
      e = p ∨ (strEndsWith p dotStar = true ∧
        ∃ t : Str, e = p.take (p.length - 2) ++ dotStr ++ t)) ∧
    (∀ root : Str, matchesNs root (root ++ dotStar) = false) :=
  ⟨matchesNs_iff, matchesNs_bare_root⟩

/-- C6: any emit, emit_async, registration, unregistration or
callback-collection cleanup whose namespace lies under the reserved
notification root emits no notification event, in every state and for
every flag configuration. -/
theorem C6_confirmed :
    ∀ (s : BrokerState) (ns : Str) (P : Finset Str) (cb : Nat)
      (params : Option (Finset Str)) (prio : Int) (ia : Bool),
      reservedNs ns = true →
      NoNotifEvents (emit s ns P).1 ∧ NoNotifEvents (emitAsync s ns P).1 ∧
      NoNotifEvents (registerSubscriber s ns cb params prio ia).2.1 ∧
      NoNotifEvents (unregisterSubscriber s ns cb).2.1 ∧
      NoNotifEvents (onCallbackCollected s ns).2.1 := by
  intro s ns P cb params prio ia h
  refine ⟨?_, ?_, ?_, ?_, ?_⟩
  · rw [emit_reserved_eq_emitCore s ns P h]
    exact emitCore_no_notify s ns P
  · rw [emitAsync_reserved_eq_core s ns P h]
    exact emitAsyncCore_no_notify s ns P
  · rw [registerSubscriber_reserved s ns cb params prio ia h]
    intro c u hm
    simp at hm
  · rw [unregisterSubscriber_reserved s ns cb h]
    intro c u hm
    simp at hm
  · rw [onCallbackCollected_reserved s ns h]
    intro c u hm
    simp at hm

/-- C6 (witness): the recursion guard evaluated on a state that has the
notify-on-emit flag set and a subscriber on the reserved sync-emit
channel. -/
theorem C6_witness :
    NoNotifEvents (emit sC4state BROKER_ON_EMIT {usingStr}).1 ∧
    NoNotifEvents (emitAsync sC4state BROKER_ON_EMIT {usingStr}).1 ∧
    NoNotifEvents (registerSubscriber sC4state BROKER_ON_EMIT 9 none 0 false).2.1 ∧
    NoNotifEvents (unregisterSubscriber sC4state BROKER_ON_EMIT 9).2.1 ∧
    NoNotifEvents (onCallbackCollected sC4state BROKER_ON_EMIT).2.1 :=
  C6_confirmed sC4state BROKER_ON_EMIT {usingStr} 9 none 0 false (by decide)

/-- C7 (counterexample): from the reachable state holding one collected
subscriber under namespace a, the callback-collection cleanup completes
without error yet leaves the namespace key in the registry with an
empty subscriber list (and its signature entry in place), so a key
exists with no live subscriber and the claimed invariant fails. -/
theorem C7_counterexample :
    (onCallbackCollected sDead nsA).2.2 = none ∧
    containsA (onCallbackCollected sDead nsA).1.subscribers nsA = true ∧
    lookupA (onCallbackCollected sDead nsA).1.subscribers nsA = some [] ∧
    containsA (onCallbackCollected sDead nsA).1.namespaceSignatures nsA = true ∧
    ¬ RegistryInv (onCallbackCollected sDead nsA).1 := by
  refine ⟨by decide, by decide, by decide, by decide, ?_⟩
  intro hinv
  obtain ⟨l, hl, sub, hsub, -⟩ := (hinv.1 nsA).1 (by decide)
  have hl2 : lookupA (onCallbackCollected sDead nsA).1.subscribers nsA = some [] := by
    decide
  rw [hl] at hl2
  cases hl2
  simp at hsub

/-- C7 (amended): the claimed invariant (a registry key exists iff it
holds at least one live subscriber, and a signature entry exists iff
the registry key exists) follows from the structural invariant that
every registry list is nonempty and fully live with the two dicts
sharing their keys; that structural invariant holds of a fresh broker
and is preserved by every completed register, unregister and clear
(emit and emit_async never modify the registry in the model).
Callback-collection cleanup is the exception recorded by the
counterexample: it can leave an empty registry key with a dangling
signature entry. -/
theorem C7_amended :
    (∀ s : BrokerState, StrongInv s → RegistryInv s) ∧
    (∀ (s : BrokerState) (ns : Str) (cb : Nat) (params : Option (Finset Str))
        (prio : Int) (ia : Bool) (s2 : BrokerState) (evs : List Event),
        StrongInv s → registerSubscriber s ns cb params prio ia = (s2, evs, none) →
        StrongInv s2) ∧
    (∀ (s : BrokerState) (ns : Str) (cb : Nat) (s2 : BrokerState) (evs : List Event),
        StrongInv s → unregisterSubscriber s ns cb = (s2, evs, none) → StrongInv s2) ∧
    (∀ s : BrokerState, StrongInv (clear s)) :=
  ⟨fun s h => strongInv_registryInv s h,
   fun _ _ _ _ _ _ _ _ hi h => strongInv_register hi h,
   fun _ _ _ _ _ hi h => strongInv_unregister hi h,
   strongInv_clear⟩

/-- C7 (witness): the structural invariant carried through a concrete
register from the fresh broker, yielding the claimed invariant, and
through clear. -/
theorem C7_witness : RegistryInv sSig ∧ StrongInv (clear sSig) := by
  have h1 : StrongInv sSig :=
    C7_amended.2.1 initState nsA 5 (some xParams) 0 false sSig [] strongInv_init (by decide)
  exact ⟨C7_amended.1 sSig h1, C7_amended.2.2.2 sSig⟩

/-- C8: the code, evaluated at the failing input.  In the reachable
state whose only subscriber under namespace a holds a collected weak
reference, both emit and emit_async call the resolved None callback,
raising TypeError with no subscriber invoked, where the specification
requires the dead entry to be skipped silently with no error. -/
theorem C8_code_eval :
    emit sDead nsA ∅ = ([], some BrokerError.typeError) ∧
    emitAsync sDead nsA ∅ = ([], some BrokerError.typeError) ∧
    lookupA sDead.subscribers nsA = some [⟨none, 0, false, nsA⟩] := by
  refine ⟨by decide, by decide, by decide⟩

/-- C9 (counterexample): after enabling the notify-on-subscribe flag,
clear empties both dicts but leaves the flag set, refuting the claim
that every notification gating flag is reset to false. -/
theorem C9_counterexample :
    (clear sC9state).subscribers = [] ∧ (clear sC9state).namespaceSignatures = [] ∧
    (clear sC9state).notify_on_subscribe = true := by
  refine ⟨by decide, by decide, by decide⟩

/-- C9 (amended): clear empties the subscriber registry and the
signature-expectation table and leaves every notification gating flag
unchanged (flags are only reset through set_flag_sates defaults or a
new broker instance). -/
theorem C9_amended :
    ∀ s : BrokerState, (clear s).subscribers = [] ∧
      (clear s).namespaceSignatures = [] ∧
      (clear s).notify_on_all = s.notify_on_all ∧
      (clear s).notify_on_subscribe = s.notify_on_subscribe ∧
      (clear s).notify_on_unsubscribe = s.notify_on_unsubscribe ∧
      (clear s).notify_on_collected = s.notify_on_collected ∧
      (clear s).notify_on_emit = s.notify_on_emit ∧
      (clear s).notify_on_emit_async = s.notify_on_emit_async ∧
      (clear s).notify_on_emit_all = s.notify_on_emit_all ∧
      (clear s).notify_on_new_namespace = s.notify_on_new_namespace ∧
      (clear s).notify_on_del_namespace = s.notify_on_del_namespace :=
  fun _ => ⟨rfl, rfl, rfl, rfl, rfl, rfl, rfl, rfl, rfl, rfl, rfl⟩

/-- C10: a registration that raises SignatureMismatchError leaves the
broker state unchanged and performs no event: the raise happens before
any mutation of the registry or the signature table. -/
theorem C10_confirmed :
    ∀ (s : BrokerState) (ns : Str) (cb : Nat) (params : Option (Finset Str))
      (prio : Int) (ia : Bool) (s2 : BrokerState) (evs : List Event),
      registerSubscriber s ns cb params prio ia = (s2, evs, some BrokerError.sigMismatch) →
      s2 = s ∧ evs = [] := by
  intro s ns cb params prio ia s2 evs h
  unfold registerSubscriber at h
  split at h
  · have herr := congrArg (fun r => r.2.2) h
    simp only [] at herr
    rcases registerPhase2_err herr with h1 | h1 <;> simp at h1
  · split at h
    · have herr := congrArg (fun r => r.2.2) h
      simp only [] at herr
      rcases registerPhase2_err herr with h1 | h1 <;> simp at h1
    · split at h
      · rw [Prod.mk.injEq, Prod.mk.injEq] at h
        exact ⟨h.1.symm, h.2.1.symm⟩
      · have herr := congrArg (fun r => r.2.2) h
        simp only [] at herr
        rcases registerPhase2_err herr with h1 | h1 <;> simp at h1

/-- C10 (witness): the mismatching second registration on namespace a
leaves the state word-for-word unchanged. -/
theorem C10_witness : sSig = sSig ∧ ([] : List Event) = [] :=
  C10_confirmed sSig nsA 6 (some yParams) 0 false sSig [] (by decide)

end PyBroker
